import Mathlib

/-!
Shallow embedding of the calendar-widget core (date-window resolution,
navigation, appointment normalization, overlap layout, fetch coordinator)
together with theorems checking the specification's claims against it.

JavaScript `Date` objects in the source always carry a local civil
date (year / month / day); the embedding represents such a value as a
`Civil` triple and renders the mutating `setDate` / `setMonth` /
`setFullYear` calls with their ECMAScript normalization semantics
(out-of-range fields roll over into adjacent months or years).
Instants with a time of day are represented as a `Civil` day plus
hour / minute / second fields, and the environment's UTC offset is an
explicit parameter wherever `toISOString` (a UTC rendering) matters.
-/

/-- A civil (calendar) date: year, 1-based month, 1-based day. -/
structure Civil where
  y : Int
  m : Int
  d : Int
deriving DecidableEq, Repr

/-- Leap-year test, as the usual Gregorian rule (JS dates are proleptic Gregorian). -/
def isLeap (y : Int) : Bool := y % 4 == 0 && (y % 100 != 0 || y % 400 == 0)

/-- Number of days in a month (month given 1-based). -/
def daysInMonth (y m : Int) : Int :=
  if m = 2 then (if isLeap y then 29 else 28)
  else if m = 4 ∨ m = 6 ∨ m = 9 ∨ m = 11 then 30 else 31

/-- Days in the months of year `y` strictly before month `m` (1-based). -/
def monthOffset (y m : Int) : Int :=
  (if 1 < m then 31 else 0) + (if 2 < m then daysInMonth y 2 else 0) +
  (if 3 < m then 31 else 0) + (if 4 < m then 30 else 0) +
  (if 5 < m then 31 else 0) + (if 6 < m then 30 else 0) +
  (if 7 < m then 31 else 0) + (if 8 < m then 31 else 0) +
  (if 9 < m then 30 else 0) + (if 10 < m then 31 else 0) +
  (if 11 < m then 30 else 0)

/-- Days contained in the years 1..y of the proleptic Gregorian calendar. -/
def yearDays (y : Int) : Int := 365 * y + y / 4 - y / 100 + y / 400

/-- Day number of a civil date, with 1970-01-01 as day 0 (the Unix epoch,
so that instants and JS day-of-week arithmetic line up). -/
def epochDays (c : Civil) : Int :=
  yearDays (c.y - 1) + monthOffset c.y c.m + c.d - 1 - 719162

/-- Day of week in the JS `getDay` convention: 0 = Sunday .. 6 = Saturday.
1970-01-01 was a Thursday (= 4). -/
def dayOfWeek (c : Civil) : Int := (epochDays c + 4) % 7

/-- A civil date is valid when its month and day are within range. -/
def Civil.Valid (c : Civil) : Prop :=
  1 ≤ c.m ∧ c.m ≤ 12 ∧ 1 ≤ c.d ∧ c.d ≤ daysInMonth c.y c.m

instance (c : Civil) : Decidable c.Valid := by
  unfold Civil.Valid; infer_instance

/-- Successor day of a valid civil date. -/
def succDay (c : Civil) : Civil :=
  if c.d < daysInMonth c.y c.m then ⟨c.y, c.m, c.d + 1⟩
  else if c.m < 12 then ⟨c.y, c.m + 1, 1⟩
  else ⟨c.y + 1, 1, 1⟩

/-- Predecessor day of a valid civil date. -/
def predDay (c : Civil) : Civil :=
  if 1 < c.d then ⟨c.y, c.m, c.d - 1⟩
  else if 1 < c.m then ⟨c.y, c.m - 1, daysInMonth c.y (c.m - 1)⟩
  else ⟨c.y - 1, 12, 31⟩

/-- Shift a civil date by `k` days (the timeline JS dates advance on). -/
def addDays (c : Civil) (k : Int) : Civil :=
  if 0 ≤ k then succDay^[k.toNat] c else predDay^[(-k).toNat] c

/-- JS `date.setDate(n)`: keeps year and month, sets the day-of-month to `n`,
normalizing out-of-range values by day arithmetic (day 0 is the last day of
the previous month, etc.). -/
def setDate (c : Civil) (n : Int) : Civil := addDays ⟨c.y, c.m, 1⟩ (n - 1)

/-- JS `date.setMonth(m0)` with `m0` 0-based and unrestricted: the year
absorbs whole-year overflow, and a day-of-month beyond the target month's
length rolls over into the following month. -/
def setMonthJS (c : Civil) (m0 : Int) : Civil :=
  addDays ⟨c.y + m0 / 12, m0 % 12 + 1, 1⟩ (c.d - 1)

/-- JS `date.setFullYear(yy)`: keeps month and day, rolling Feb 29 over
into Mar 1 when the target year is not a leap year. -/
def setFullYearJS (c : Civil) (yy : Int) : Civil :=
  addDays ⟨yy, c.m, 1⟩ (c.d - 1)

/-- JS `new Date(y, m0, d)` with `m0` 0-based and both `m0` and `d`
unrestricted, normalized exactly like the setters above. -/
def jsMkDate (y m0 d : Int) : Civil :=
  addDays ⟨y + m0 / 12, m0 % 12 + 1, 1⟩ (d - 1)

/-- Calendar-date comparison via the day number. -/
def civilLe (a b : Civil) : Prop := epochDays a ≤ epochDays b

instance (a b : Civil) : Decidable (civilLe a b) := by
  unfold civilLe; infer_instance

/-- The view identifiers the widget recognizes. -/
inductive CalView where
  | day
  | week
  | month
  | year
  | search
deriving DecidableEq, Repr

/-- Result record of the date-range resolver (`date`, `start`, `end` of the
source; `end` is a reserved word in Lean, hence `stop`). All three are
calendar dates, exactly what `formatDateToDateString` renders. -/
structure ResolvedRange where
  date : Civil
  start : Civil
  stop : Civil
deriving DecidableEq, Repr

/-- Embedding of `getStartAndEndDateByView`: computes the visible window for
a view from the stored date `c` and the `startWeekOnSunday` setting, using
the JS `Date` setter semantics defined above.  The `week` case adds
`diffToMonday` (the raw `getDay` value when `startWeekOnSunday`, otherwise
the offset to Monday) to the day-of-month; the `month` case derives the end
from `setMonth(getMonth() + 1)` followed by `setDate(0)` and pads both ends
to the configured week boundaries. -/
def getStartAndEndDateByView (view : CalView) (startWeekOnSunday : Bool) (c : Civil) :
    ResolvedRange :=
  match view with
  | .day => ⟨c, c, c⟩
  | .week =>
      let dow := dayOfWeek c
      let diffToMonday := if startWeekOnSunday then dow else (if dow = 0 then -6 else 1 - dow)
      let startD := setDate c (c.d + diffToMonday)
      let endD := setDate startD (startD.d + 6)
      ⟨c, startD, endD⟩
  | .month =>
      let s1 := setDate c 1
      let dow0 := dayOfWeek s1
      let startD :=
        if startWeekOnSunday then setDate s1 (s1.d - dow0)
        else setDate s1 (s1.d - (if dow0 = 0 then 6 else dow0 - 1))
      let e1 := setMonthJS c c.m
      let e2 := setDate e1 0
      let dowE := dayOfWeek e2
      let endD :=
        if startWeekOnSunday then setDate e2 (e2.d + (6 - dowE))
        else setDate e2 (e2.d + (if dowE = 0 then -1 else 7 - dowE))
      ⟨c, startD, endD⟩
  | .year | .search =>
      let s := setDate (setMonthJS c 0) 1
      let e := setDate (setMonthJS c 11) 31
      ⟨c, s, e⟩

/-- Embedding of `navigateBack`: shifts the stored date one unit into the
past according to the current view, with the JS rollover semantics and the
source's day-1 clamping for month and year. The `search` view has no case
in the source's `switch`, so the date is returned unchanged. -/
def navigateBack (view : CalView) (c : Civil) : Civil :=
  match view with
  | .month =>
      let nd := setMonthJS c (c.m - 2)
      if nd.d ≠ c.d then setDate nd 1 else nd
  | .year => setDate (setFullYearJS c (c.y - 1)) 1
  | .week => setDate c (c.d - 7)
  | .day => setDate c (c.d - 1)
  | .search => c

/-- Embedding of `navigateForward`, mirror image of `navigateBack`. -/
def navigateForward (view : CalView) (c : Civil) : Civil :=
  match view with
  | .month =>
      let nd := setMonthJS c c.m
      if nd.d ≠ c.d then setDate nd 1 else nd
  | .year => setDate (setFullYearJS c (c.y + 1)) 1
  | .week => setDate c (c.d + 7)
  | .day => setDate c (c.d + 1)
  | .search => c

/-- Modelled from the spec: the first weekday offset of the configured week
(0 = Sunday when `startWeekOnSunday`, else 1 = Monday). -/
def firstWeekday (startWeekOnSunday : Bool) : Int :=
  if startWeekOnSunday then 0 else 1

/-- Modelled from the spec: `date` shifted back to the configured first
weekday of its week. -/
def specWeekStart (startWeekOnSunday : Bool) (c : Civil) : Civil :=
  addDays c (-((dayOfWeek c - firstWeekday startWeekOnSunday + 7) % 7))

/-- Modelled from the spec: the first of `c`'s month shifted back to the
first weekday of its week. -/
def specMonthStart (startWeekOnSunday : Bool) (c : Civil) : Civil :=
  specWeekStart startWeekOnSunday ⟨c.y, c.m, 1⟩

/-- The last day of `c`'s month. -/
def lastOfMonth (c : Civil) : Civil := ⟨c.y, c.m, daysInMonth c.y c.m⟩

/-- Modelled from the spec: a date shifted forward to the last weekday of
its week (the day before the next configured first weekday). -/
def specWeekEnd (startWeekOnSunday : Bool) (c : Civil) : Civil :=
  addDays c ((firstWeekday startWeekOnSunday + 6 - dayOfWeek c) % 7)

/-- Modelled from the spec: the last of `c`'s month shifted forward to the
last weekday of its week. -/
def specMonthEnd (startWeekOnSunday : Bool) (c : Civil) : Civil :=
  specWeekEnd startWeekOnSunday (lastOfMonth c)

/-- The last day of the month that the source's `setMonth(getMonth() + 1)`
followed by `setDate(0)` actually lands on: the month after `c`'s month
when `c.d` fits in it, and one month further when `c.d` rolls over. -/
def rolledMonthLast (c : Civil) : Civil := setDate (setMonthJS c c.m) 0

/-- Previous month of a date as a (year, month) pair. -/
def prevMonthPair (c : Civil) : Int × Int :=
  if 2 ≤ c.m then (c.y, c.m - 1) else (c.y - 1, 12)

/-- Next month of a date as a (year, month) pair. -/
def nextMonthPair (c : Civil) : Int × Int :=
  if c.m ≤ 11 then (c.y, c.m + 1) else (c.y + 1, 1)

/-- An appointment as the sorter `sortAppointmentByStart` sees it: the
`allDay` flag and the numeric value of `new Date(a.start)`.  `id` stands
for the record's identity (input position), which a stable sort preserves
among equal keys. -/
structure Appt where
  id : Nat
  allDay : Bool
  startMs : Int
deriving DecidableEq, Repr

/-- The sort comparator of `sortAppointmentByStart` as a `should not come
after` test: `cmp(a,b) <= 0`.  With `sortAllDay` set, all-day records sort
before timed ones; within a class the numeric start decides. -/
def apptLeB (sortAllDay : Bool) (a b : Appt) : Bool :=
  if sortAllDay && a.allDay && !b.allDay then true
  else if sortAllDay && !a.allDay && b.allDay then false
  else a.startMs ≤ b.startMs

/-- Propositional form of the comparator order. -/
def apptLe (sortAllDay : Bool) (a b : Appt) : Prop := apptLeB sortAllDay a b = true

instance (sortAllDay : Bool) : DecidableRel (apptLe sortAllDay) := fun _ _ => by
  unfold apptLe; infer_instance

/-- Embedding of `sortAppointmentByStart`: ECMAScript `Array.prototype.sort`
is a stable sort with respect to the comparator, and `List.insertionSort`
is the stable sort for the induced preorder, so the two agree. -/
def sortAppointmentByStart (appointments : List Appt) (sortAllDay : Bool) : List Appt :=
  List.insertionSort (apptLe sortAllDay) appointments

/-- `checkAndSetAppointments` sorts with `!inSearchMode` as the
`sortAllDay` flag. -/
def checkAndSetSortFlag (inSearchMode : Bool) : Bool := !inSearchMode

/-- One slot of the per-weekday overlap layout: the numeric values of the
segment's start/end `Date`s. `id` models JS object identity, which the
source's `otherAppointment !== appointment` test relies on. -/
structure Slot where
  id : Nat
  startMs : Int
  endMs : Int
deriving DecidableEq, Repr

/-- Embedding of `doesNotOverlap`: the new appointment is compatible with a
column when it does not overlap any member. -/
def doesNotOverlap (column : List Slot) (newAppointment : Slot) : Bool :=
  column.all (fun a => decide (newAppointment.startMs ≥ a.endMs ∨ newAppointment.endMs ≤ a.startMs))

/-- The `for (let column of columns)` loop: put the slot into the first
column it does not overlap, or report that none fits. -/
def insertIntoFirstColumn : List (List Slot) → Slot → Option (List (List Slot))
  | [], _ => none
  | col :: rest, a =>
      if doesNotOverlap col a then some ((col ++ [a]) :: rest)
      else (insertIntoFirstColumn rest a).map (fun cols => col :: cols)

/-- The `appointments.some(...)` overlap test against every other slot of
the weekday. -/
def hasOverlapWithOther (all : List Slot) (a : Slot) : Bool :=
  all.any (fun o => decide (o ≠ a) &&
    !(decide (a.startMs ≥ o.endMs) || decide (a.endMs ≤ o.startMs)))

/-- One step of the placement loop of `groupOverlappingAppointments`:
state is (columns, fullWidth). -/
def placeSlot (all : List Slot) (st : List (List Slot) × List Slot) (a : Slot) :
    List (List Slot) × List Slot :=
  match insertIntoFirstColumn st.1 a with
  | some cols => (cols, st.2)
  | none =>
      if !hasOverlapWithOther all a && st.1.isEmpty then (st.1, st.2 ++ [a])
      else (st.1 ++ [[a]], st.2)

/-- The sort at the head of the weekday loop orders slots by start value. -/
def slotLe (a b : Slot) : Prop := a.startMs ≤ b.startMs

instance : DecidableRel slotLe := fun _ _ => by
  unfold slotLe; infer_instance

/-- Embedding of the per-weekday part of `groupOverlappingAppointments`:
sort the weekday's slots by start, then place each into the first fitting
column, or mark it full-width when it overlaps nothing and no column
exists yet, or open a new column. -/
def groupDay (slots : List Slot) : List (List Slot) × List Slot :=
  let sorted := List.insertionSort slotLe slots
  sorted.foldl (placeSlot sorted) ([], [])

/-- Two slots do not overlap in time (symmetric reading of the source's
interval test). -/
def slotsDisjoint (a b : Slot) : Prop := a.startMs ≥ b.endMs ∨ a.endMs ≤ b.startMs

instance (a b : Slot) : Decidable (slotsDisjoint a b) := by
  unfold slotsDisjoint; infer_instance

/-- A local civil date-time, the decomposition a JS `Date` exposes through
its local getters. -/
structure CivilTime where
  day : Civil
  hour : Int
  minute : Int
  second : Int
deriving DecidableEq, Repr

/-- Milliseconds within the day of a civil time. -/
def msOfDay (t : CivilTime) : Int := ((t.hour * 60 + t.minute) * 60 + t.second) * 1000

/-- Local-rendered millisecond timeline value of a civil time (absolute JS
`Date` values differ from this by the constant UTC offset, so comparisons
and differences of two such values agree with the JS ones). -/
def ctMs (t : CivilTime) : Int := epochDays t.day * 86400000 + msOfDay t

/-- Shift a civil time by a number of seconds, renormalizing the clock
fields into 0..23:59:59 and moving the day accordingly. -/
def shiftCivilTime (t : CivilTime) (sec : Int) : CivilTime :=
  let total := (t.hour * 60 + t.minute) * 60 + t.second + sec
  { day := addDays t.day (total / 86400)
    hour := total % 86400 / 3600
    minute := total % 86400 % 3600 / 60
    second := total % 86400 % 60 }

/-- `Date.prototype.toISOString` renders the instant in UTC: with a UTC
offset of `offMin` minutes (local = UTC + offset), the rendered fields are
the local fields shifted back by the offset. -/
def toISOStringCT (offMin : Int) (t : CivilTime) : CivilTime :=
  shiftCivilTime t (-(offMin * 60))

/-- `new Date(isoZString)` followed by local getters: the UTC fields of
the string shifted forward by the offset. -/
def parseISOToLocal (offMin : Int) (u : CivilTime) : CivilTime :=
  shiftCivilTime u (offMin * 60)

/-- A raw appointment as `cleanAppointments` receives it: start/end parsed
as local civil date-times (`normalizeDateTime` only turns the blank into a
`T`, so the string denotes local time), plus the `allDay` flag. -/
structure RawAppt where
  startT : CivilTime
  endT : CivilTime
  allDay : Bool
deriving DecidableEq, Repr

/-- Embedding of `cleanAppointments` for one record: all-day records get
their start clamped to local 00:00:00 of the start day and their end to
local 23:59:59 of the end day, and the results are stored through
`toISOString`, i.e. as UTC-rendered fields.  Timed records pass through. -/
def cleanAppointment (offMin : Int) (a : RawAppt) : RawAppt :=
  if a.allDay then
    { a with
      startT := toISOStringCT offMin ⟨a.startT.day, 0, 0, 0⟩
      endT := toISOStringCT offMin ⟨a.endT.day, 23, 59, 59⟩ }
  else a

/-- The local date-time the stored (UTC-rendered) start denotes, as
`setAppointmentExtras` reads it back via `new Date(appointment.start)`. -/
def storedStartLocal (offMin : Int) (a : RawAppt) : CivilTime :=
  parseISOToLocal offMin (cleanAppointment offMin a).startT

/-- Local reading of the stored end, as above. -/
def storedEndLocal (offMin : Int) (a : RawAppt) : CivilTime :=
  parseISOToLocal offMin (cleanAppointment offMin a).endT

/-- The duration record `setAppointmentExtras` computes. -/
structure Duration where
  days : Int
  hours : Int
  minutes : Int
  seconds : Int
  totalMinutes : Int
  totalSeconds : Int
deriving DecidableEq, Repr

/-- Embedding of the all-day branch of the duration computation: whole
local calendar days between the two stored endpoints, inclusive, with the
clock parts zeroed; the totals still use the raw instant difference. -/
def durationAllDay (s e : CivilTime) : Duration :=
  let diffMillis := ctMs e - ctMs s
  let diffDaysMillis := epochDays e.day * 86400000 - epochDays s.day * 86400000
  { days := diffDaysMillis / 86400000 + 1
    hours := 0
    minutes := 0
    seconds := 0
    totalMinutes := diffMillis / 60000
    totalSeconds := diffMillis / 1000 }

/-- Embedding of the hourly branch of the duration computation. -/
def durationHourly (s e : CivilTime) : Duration :=
  let diffMillis := ctMs e - ctMs s
  let totalSeconds := diffMillis / 1000
  { days := totalSeconds / 86400
    hours := totalSeconds % 86400 / 3600
    minutes := totalSeconds % 3600 / 60
    seconds := totalSeconds % 60
    totalMinutes := (totalSeconds + 30) / 60
    totalSeconds := totalSeconds }

/-- The duration attached to a cleaned appointment. -/
def appointmentDuration (offMin : Int) (a : RawAppt) : Duration :=
  if a.allDay then durationAllDay (storedStartLocal offMin a) (storedEndLocal offMin a)
  else durationHourly (storedStartLocal offMin a) (storedEndLocal offMin a)

/-- The per-day time captions of a display segment (hour, minute pairs;
`none` for all-day records). -/
structure SegTimes where
  startT : Option (Int × Int)
  endT : Option (Int × Int)
deriving DecidableEq, Repr

/-- One element of `extras.displayDates`. -/
structure DisplaySegment where
  date : Civil
  day : Int
  times : SegTimes
  visibleInWeek : Bool
  visibleInMonth : Bool
deriving DecidableEq, Repr

/-- First day of the padded month grid that `setAppointmentExtras` builds
from the wall-clock date `now`. -/
def gridMonthStart (startWeekOnSunday : Bool) (now : Civil) : Civil :=
  let firstOfMonth : Civil := ⟨now.y, now.m, 1⟩
  let fdOff : Int := if startWeekOnSunday then 0 else 1
  setDate firstOfMonth (1 - ((dayOfWeek firstOfMonth - fdOff + 7) % 7))

/-- Last day of that padded month grid (`new Date(y, m + 1, 0)` padded to
the end of its week). -/
def gridMonthEnd (startWeekOnSunday : Bool) (now : Civil) : Civil :=
  let lastOfM := jsMkDate now.y now.m 0
  let fdOff : Int := if startWeekOnSunday then 0 else 1
  setDate lastOfM (lastOfM.d + (6 - ((dayOfWeek lastOfM - fdOff + 7) % 7)))

/-- The per-day week test of `setAppointmentExtras`: build the week range
of `tempDate` itself and ask whether `tempDate` lies in it (compared as
millisecond values, the range end being start + 7 days - 1ms). -/
def segVisibleInWeek (startWeekOnSunday : Bool) (tempDate : Civil) : Bool :=
  let dow := dayOfWeek tempDate
  let dayOffset : Int := if startWeekOnSunday then dow else (if dow = 0 then 7 else dow) - 1
  let weekRangeStart := setDate tempDate (tempDate.d - dayOffset)
  let startMs := epochDays weekRangeStart * 86400000
  let tempMs := epochDays tempDate * 86400000
  decide (startMs ≤ tempMs) && decide (tempMs ≤ startMs + 7 * 86400000 - 1)

/-- `formatTime` on a date: its local hour and minute. -/
def formatTimeHM (t : CivilTime) : Int × Int := (t.hour, t.minute)

/-- One display segment for the day `tempDate` of an appointment running
from `startT` to `endT` (local readings of the stored bounds). -/
def mkDisplaySegment (startWeekOnSunday : Bool) (now : Civil) (startT endT : CivilTime)
    (isAllDay : Bool) (tempDate : Civil) : DisplaySegment :=
  let dateIsStart := tempDate = startT.day
  let dateIsEnd := tempDate = endT.day
  let times : SegTimes :=
    if isAllDay then ⟨none, none⟩
    else if dateIsStart then
      ⟨some (formatTimeHM startT),
        if ctMs endT > epochDays tempDate * 86400000 + 86399999 then some (23, 59)
        else some (formatTimeHM endT)⟩
    else if dateIsEnd then ⟨some (0, 0), some (formatTimeHM endT)⟩
    else ⟨some (0, 0), some (23, 59)⟩
  { date := tempDate
    day := dayOfWeek tempDate
    times := times
    visibleInWeek := segVisibleInWeek startWeekOnSunday tempDate
    visibleInMonth :=
      decide (epochDays (gridMonthStart startWeekOnSunday now) ≤ epochDays tempDate) &&
      decide (epochDays tempDate ≤ epochDays (gridMonthEnd startWeekOnSunday now)) }

/-- Embedding of the `while (tempDate <= tempEnd)` loop of
`setAppointmentExtras`: one segment per local calendar day from the start
day to the end day (the loop guard compares the midnight instants, i.e.
the `epochDays`). -/
def displayDatesFor (startWeekOnSunday : Bool) (now : Civil) (startT endT : CivilTime)
    (isAllDay : Bool) : List DisplaySegment :=
  let n := epochDays endT.day - epochDays startT.day + 1
  (List.range n.toNat).map
    (fun i => mkDisplaySegment startWeekOnSunday now startT endT isAllDay
      (addDays startT.day (Int.ofNat i)))

/-- Log lines the fetch coordinator can emit. -/
inductive LogEvent where
  | skipDuplicate
  | errorLog
deriving DecidableEq, Repr

/-- How the dispatched request settles. -/
inductive FetchOutcome where
  | success (rows : List Nat)
  | failureAbort
  | failureError
deriving DecidableEq, Repr

/-- The per-instance fetch state: busy flag, stored appointment set
(opaque record ids), pending-request handle. -/
structure FetchState where
  loading : Bool
  appointments : List Nat
  pendingRequest : Option Nat
deriving DecidableEq, Repr

/-- Embedding of the request-based path of `fetchAppointments`: the
single-flight guard (skip and log when already loading), setting the busy
flag, `methodClear` (which removes the rendered appointments and stores an
empty set), aborting and replacing the pending request, and the
`success` / `error` / `complete` callbacks of the dispatched request.  The
`error` callback logs (debug only) unless the failure status is `abort`;
`complete` always clears the request handle and the busy flag. -/
def fetchAppointments (debug : Bool) (st : FetchState) (reqId : Nat)
    (outcome : FetchOutcome) : FetchState × List LogEvent :=
  if st.loading then (st, if debug then [.skipDuplicate] else [])
  else
    let cleared : FetchState := { loading := true, appointments := [], pendingRequest := some reqId }
    match outcome with
    | .success rows =>
        ({ cleared with appointments := rows, pendingRequest := none, loading := false }, [])
    | .failureAbort =>
        ({ cleared with pendingRequest := none, loading := false }, [])
    | .failureError =>
        ({ cleared with pendingRequest := none, loading := false },
          if debug then [.errorLog] else [])

theorem daysInMonth_ge (y m : Int) : 28 ≤ daysInMonth y m := by
  unfold daysInMonth; split_ifs <;> omega

theorem daysInMonth_le (y m : Int) : daysInMonth y m ≤ 31 := by
  unfold daysInMonth; split_ifs <;> omega

theorem daysInMonth_twelve (y : Int) : daysInMonth y 12 = 31 := by
  unfold daysInMonth; norm_num

theorem daysInMonth_one (y : Int) : daysInMonth y 1 = 31 := by
  unfold daysInMonth; norm_num

theorem monthOffset_one (y : Int) : monthOffset y 1 = 0 := by
  unfold monthOffset; norm_num

theorem monthOffset_add_one (y m : Int) (h1 : 1 ≤ m) (h2 : m ≤ 11) :
    monthOffset y (m + 1) = monthOffset y m + daysInMonth y m := by
  have hm : m = 1 ∨ m = 2 ∨ m = 3 ∨ m = 4 ∨ m = 5 ∨ m = 6 ∨ m = 7 ∨ m = 8 ∨
      m = 9 ∨ m = 10 ∨ m = 11 := by omega
  rcases hm with h|h|h|h|h|h|h|h|h|h|h <;> subst h <;>
    norm_num [monthOffset, daysInMonth]

theorem yearDays_sub (y : Int) :
    yearDays y - yearDays (y - 1) = if isLeap y then 366 else 365 := by
  unfold yearDays isLeap
  have hiff : (y % 4 == 0 && (y % 100 != 0 || y % 400 == 0)) = true ↔
      (y % 4 = 0 ∧ (¬ y % 100 = 0 ∨ y % 400 = 0)) := by
    simp only [Bool.and_eq_true, Bool.or_eq_true, beq_iff_eq, bne_iff_ne, ne_eq]
  split <;> rename_i h
  · rw [hiff] at h; omega
  · rw [hiff] at h
    push_neg at h
    by_cases h4 : y % 4 = 0
    · rcases h h4 with ⟨h100, h400⟩; omega
    · omega

theorem monthOffset_twelve_add (y : Int) :
    monthOffset y 12 + daysInMonth y 12 = if isLeap y then 366 else 365 := by
  unfold monthOffset daysInMonth
  norm_num
  split_ifs <;> omega

theorem succDay_cases (y m d : Int) (_h3 : 1 ≤ d) (hd : d ≤ daysInMonth y m) :
    (d < daysInMonth y m ∧ succDay ⟨y, m, d⟩ = ⟨y, m, d + 1⟩) ∨
    (d = daysInMonth y m ∧ m < 12 ∧ succDay ⟨y, m, d⟩ = ⟨y, m + 1, 1⟩) ∨
    (d = daysInMonth y m ∧ ¬ m < 12 ∧ succDay ⟨y, m, d⟩ = ⟨y + 1, 1, 1⟩) := by
  by_cases ha : d < daysInMonth y m
  · exact Or.inl ⟨ha, by unfold succDay; dsimp only; rw [if_pos ha]⟩
  · by_cases hb : m < 12
    · refine Or.inr (Or.inl ⟨by omega, hb, ?_⟩)
      unfold succDay; dsimp only; rw [if_neg ha, if_pos hb]
    · refine Or.inr (Or.inr ⟨by omega, hb, ?_⟩)
      unfold succDay; dsimp only; rw [if_neg ha, if_neg hb]

theorem predDay_cases (y m d : Int) (h3 : 1 ≤ d) (h1 : 1 ≤ m) :
    (1 < d ∧ predDay ⟨y, m, d⟩ = ⟨y, m, d - 1⟩) ∨
    (d = 1 ∧ 1 < m ∧ predDay ⟨y, m, d⟩ = ⟨y, m - 1, daysInMonth y (m - 1)⟩) ∨
    (d = 1 ∧ m = 1 ∧ predDay ⟨y, m, d⟩ = ⟨y - 1, 12, 31⟩) := by
  by_cases ha : 1 < d
  · exact Or.inl ⟨ha, by unfold predDay; dsimp only; rw [if_pos ha]⟩
  · by_cases hb : 1 < m
    · refine Or.inr (Or.inl ⟨by omega, hb, ?_⟩)
      unfold predDay; dsimp only; rw [if_neg ha, if_pos hb]
    · refine Or.inr (Or.inr ⟨by omega, by omega, ?_⟩)
      unfold predDay; dsimp only; rw [if_neg ha, if_neg hb]

theorem valid_mk (y m d : Int) :
    (Civil.mk y m d).Valid ↔ (1 ≤ m ∧ m ≤ 12 ∧ 1 ≤ d ∧ d ≤ daysInMonth y m) :=
  Iff.rfl

theorem succDay_valid {c : Civil} (h : c.Valid) : (succDay c).Valid := by
  obtain ⟨y, m, d⟩ := c
  have h1 : 1 ≤ m := h.1
  have h2 : m ≤ 12 := h.2.1
  have h3 : 1 ≤ d := h.2.2.1
  have h4 : d ≤ daysInMonth y m := h.2.2.2
  have g1 := daysInMonth_ge y (m + 1)
  have g2 := daysInMonth_ge (y + 1) 1
  rcases succDay_cases y m d h3 h4 with ⟨ha, hs⟩ | ⟨ha, hb, hs⟩ | ⟨ha, hb, hs⟩ <;>
    rw [hs, valid_mk] <;> omega

theorem predDay_valid {c : Civil} (h : c.Valid) : (predDay c).Valid := by
  obtain ⟨y, m, d⟩ := c
  have h1 : 1 ≤ m := h.1
  have h2 : m ≤ 12 := h.2.1
  have h3 : 1 ≤ d := h.2.2.1
  have h4 : d ≤ daysInMonth y m := h.2.2.2
  have g1 := daysInMonth_ge y (m - 1)
  have g2 := daysInMonth_twelve (y - 1)
  rcases predDay_cases y m d h3 h1 with ⟨ha, hs⟩ | ⟨ha, hb, hs⟩ | ⟨ha, hb, hs⟩ <;>
    rw [hs, valid_mk] <;> omega

theorem epochDays_succDay {c : Civil} (h : c.Valid) :
    epochDays (succDay c) = epochDays c + 1 := by
  obtain ⟨y, m, d⟩ := c
  have h1 : 1 ≤ m := h.1
  have h2 : m ≤ 12 := h.2.1
  have h3 : 1 ≤ d := h.2.2.1
  have h4 : d ≤ daysInMonth y m := h.2.2.2
  rcases succDay_cases y m d h3 h4 with ⟨ha, hs⟩ | ⟨ha, hb, hs⟩ | ⟨ha, hb, hs⟩ <;>
      rw [hs] <;> simp only [epochDays]
  · ring
  · have hmo := monthOffset_add_one y m h1 (by omega)
    omega
  · have hm12 : m = 12 := by omega
    subst hm12
    have hd12 := daysInMonth_twelve y
    have hy := yearDays_sub y
    have hmo12 := monthOffset_twelve_add y
    have hmo1 := monthOffset_one (y + 1)
    have hy1 : y + 1 - 1 = y := by ring
    rw [hmo1, hy1]
    split_ifs at hy hmo12 <;> omega

theorem predDay_succDay {c : Civil} (h : c.Valid) : predDay (succDay c) = c := by
  obtain ⟨y, m, d⟩ := c
  have h1 : 1 ≤ m := h.1
  have h2 : m ≤ 12 := h.2.1
  have h3 : 1 ≤ d := h.2.2.1
  have h4 : d ≤ daysInMonth y m := h.2.2.2
  have g28 := daysInMonth_ge y m
  rcases succDay_cases y m d h3 h4 with ⟨ha, hs⟩ | ⟨ha, hb, hs⟩ | ⟨ha, hb, hs⟩ <;> rw [hs]
  · unfold predDay; dsimp only
    rw [if_pos (by omega : (1:Int) < d + 1)]
    simp only [Civil.mk.injEq, true_and]
    omega
  · unfold predDay; dsimp only
    rw [if_neg (by omega : ¬ (1:Int) < 1), if_pos (by omega : (1:Int) < m + 1)]
    simp only [Civil.mk.injEq, Int.add_sub_cancel, true_and]
    omega
  · unfold predDay; dsimp only
    rw [if_neg (by omega : ¬ (1:Int) < 1), if_neg (by omega : ¬ (1:Int) < 1)]
    have hm12 : m = 12 := by omega
    subst hm12
    have hd12 := daysInMonth_twelve y
    simp only [Civil.mk.injEq, and_true, true_and]
    omega

theorem succDay_predDay {c : Civil} (h : c.Valid) : succDay (predDay c) = c := by
  obtain ⟨y, m, d⟩ := c
  have h1 : 1 ≤ m := h.1
  have h2 : m ≤ 12 := h.2.1
  have h3 : 1 ≤ d := h.2.2.1
  have h4 : d ≤ daysInMonth y m := h.2.2.2
  rcases predDay_cases y m d h3 h1 with ⟨ha, hs⟩ | ⟨ha, hb, hs⟩ | ⟨ha, hb, hs⟩ <;> rw [hs]
  · unfold succDay; dsimp only
    rw [if_pos (by omega : d - 1 < daysInMonth y m)]
    simp only [Civil.mk.injEq, true_and]
    omega
  · have g28 := daysInMonth_ge y (m - 1)
    unfold succDay; dsimp only
    rw [if_neg (by omega : ¬ daysInMonth y (m - 1) < daysInMonth y (m - 1)),
        if_pos (by omega : m - 1 < 12)]
    simp only [Civil.mk.injEq, Int.sub_add_cancel, true_and]
    omega
  · have hd12 := daysInMonth_twelve (y - 1)
    unfold succDay; dsimp only
    rw [if_neg (by omega : ¬ (31:Int) < daysInMonth (y - 1) 12),
        if_neg (by omega : ¬ (12:Int) < 12)]
    simp only [Civil.mk.injEq]
    omega

theorem iterSucc_valid (n : Nat) {c : Civil} (h : c.Valid) : (succDay^[n] c).Valid := by
  induction n generalizing c with
  | zero => simpa using h
  | succ k ih =>
      rw [Function.iterate_succ_apply]
      exact ih (succDay_valid h)

theorem iterPred_valid (n : Nat) {c : Civil} (h : c.Valid) : (predDay^[n] c).Valid := by
  induction n generalizing c with
  | zero => simpa using h
  | succ k ih =>
      rw [Function.iterate_succ_apply]
      exact ih (predDay_valid h)

theorem epochDays_iterSucc (n : Nat) {c : Civil} (h : c.Valid) :
    epochDays (succDay^[n] c) = epochDays c + n := by
  induction n generalizing c with
  | zero => simp
  | succ k ih =>
      rw [Function.iterate_succ_apply]
      rw [ih (succDay_valid h), epochDays_succDay h]
      push_cast
      ring

theorem epochDays_predDay {c : Civil} (h : c.Valid) :
    epochDays (predDay c) = epochDays c - 1 := by
  have hv := predDay_valid h
  have := epochDays_succDay hv
  rw [succDay_predDay h] at this
  omega

theorem epochDays_iterPred (n : Nat) {c : Civil} (h : c.Valid) :
    epochDays (predDay^[n] c) = epochDays c - n := by
  induction n generalizing c with
  | zero => simp
  | succ k ih =>
      rw [Function.iterate_succ_apply]
      rw [ih (predDay_valid h), epochDays_predDay h]
      push_cast
      ring

theorem addDays_valid {c : Civil} (h : c.Valid) (k : Int) : (addDays c k).Valid := by
  unfold addDays
  split_ifs
  · exact iterSucc_valid _ h
  · exact iterPred_valid _ h

theorem epochDays_addDays {c : Civil} (h : c.Valid) (k : Int) :
    epochDays (addDays c k) = epochDays c + k := by
  unfold addDays
  split_ifs with hk
  · rw [epochDays_iterSucc _ h]
    omega
  · rw [epochDays_iterPred _ h]
    omega

theorem iterPred_iterSucc (n : Nat) {c : Civil} (h : c.Valid) :
    predDay^[n] (succDay^[n] c) = c := by
  induction n generalizing c with
  | zero => simp
  | succ k ih =>
      rw [Function.iterate_succ_apply succDay, Function.iterate_succ_apply' predDay]
      rw [ih (succDay_valid h)]
      exact predDay_succDay h

theorem iterSucc_iterPred (n : Nat) {c : Civil} (h : c.Valid) :
    succDay^[n] (predDay^[n] c) = c := by
  induction n generalizing c with
  | zero => simp
  | succ k ih =>
      rw [Function.iterate_succ_apply predDay, Function.iterate_succ_apply' succDay]
      rw [ih (predDay_valid h)]
      exact succDay_predDay h

theorem addDays_zero (c : Civil) : addDays c 0 = c := by
  simp [addDays]

theorem addDays_neg_cancel {c : Civil} (h : c.Valid) (k : Int) :
    addDays (addDays c k) (-k) = c := by
  rcases le_or_lt 0 k with hk | hk
  · rcases eq_or_lt_of_le hk with hk0 | hkpos
    · simp [← hk0, addDays_zero]
    · have h1 : addDays c k = succDay^[k.toNat] c := by
        unfold addDays; rw [if_pos hk]
      have h2 : addDays (succDay^[k.toNat] c) (-k) = predDay^[k.toNat] (succDay^[k.toNat] c) := by
        unfold addDays
        rw [if_neg (by omega), neg_neg]
      rw [h1, h2, iterPred_iterSucc _ h]
  · have h1 : addDays c k = predDay^[(-k).toNat] c := by
      unfold addDays; rw [if_neg (by omega)]
    have h2 : addDays (predDay^[(-k).toNat] c) (-k) = succDay^[(-k).toNat] (predDay^[(-k).toNat] c) := by
      unfold addDays
      rw [if_pos (by omega)]
    rw [h1, h2, iterSucc_iterPred _ h]

theorem iterSucc_within_month (k : Nat) :
    ∀ y m d : Int, 1 ≤ d → d + k ≤ daysInMonth y m → succDay^[k] ⟨y, m, d⟩ = ⟨y, m, d + k⟩ := by
  induction k with
  | zero => intro y m d _ _; simp
  | succ j ih =>
      intro y m d h1 h2
      rw [Function.iterate_succ_apply]
      have hs : succDay ⟨y, m, d⟩ = ⟨y, m, d + 1⟩ := by
        unfold succDay; dsimp only
        rw [if_pos (by push_cast at h2 ⊢; omega)]
      rw [hs, ih y m (d + 1) (by omega) (by push_cast at h2 ⊢; omega)]
      congr 1
      push_cast
      ring

theorem addDays_within_month {y m d k : Int} (h1 : 1 ≤ d) (h0 : 0 ≤ k)
    (h2 : d + k ≤ daysInMonth y m) : addDays ⟨y, m, d⟩ k = ⟨y, m, d + k⟩ := by
  unfold addDays
  rw [if_pos h0]
  rw [iterSucc_within_month k.toNat y m d h1 (by omega)]
  congr 1
  omega

theorem setDate_within {y m d n : Int} (h1 : 1 ≤ n) (h2 : n ≤ daysInMonth y m) :
    setDate ⟨y, m, d⟩ n = ⟨y, m, n⟩ := by
  unfold setDate
  dsimp only
  rw [addDays_within_month (by omega) (by omega) (by omega)]
  congr 1
  omega

theorem addDays_neg_one (c : Civil) : addDays c (-1) = predDay c := by
  unfold addDays
  rw [if_neg (by omega)]
  norm_num

theorem setDate_zero (y m d : Int) :
    setDate ⟨y, m, d⟩ 0 = predDay ⟨y, m, 1⟩ := by
  unfold setDate
  dsimp only
  rw [show (0:Int) - 1 = -1 by ring, addDays_neg_one]

theorem addDays_rollover {y m d : Int} (h1 : 1 ≤ m) (h2 : m ≤ 11)
    (hlo : daysInMonth y m < d) (hhi : d ≤ daysInMonth y m + daysInMonth y (m + 1)) :
    addDays ⟨y, m, 1⟩ (d - 1) = ⟨y, m + 1, d - daysInMonth y m⟩ := by
  have g1 := daysInMonth_ge y m
  have g2 := daysInMonth_ge y (m + 1)
  unfold addDays
  rw [if_pos (by omega)]
  have hsplit : (d - 1).toNat =
      ((d - daysInMonth y m - 1).toNat + 1) + (daysInMonth y m - 1).toNat := by
    omega
  rw [hsplit, Function.iterate_add_apply]
  rw [iterSucc_within_month (daysInMonth y m - 1).toNat y m 1 (by omega) (by omega)]
  rw [Function.iterate_add_apply]
  have hstep : succDay^[1] (⟨y, m, 1 + (((daysInMonth y m) - 1).toNat : Int)⟩ : Civil) =
      ⟨y, m + 1, 1⟩ := by
    have he : (1 : Int) + (((daysInMonth y m) - 1).toNat : Int) = daysInMonth y m := by omega
    rw [he]
    simp only [Function.iterate_one]
    unfold succDay; dsimp only
    rw [if_neg (by omega), if_pos (by omega)]
  rw [hstep]
  rw [iterSucc_within_month _ y (m + 1) 1 (by omega) (by omega)]
  congr 1
  omega

theorem addDays_rollover_december {y d : Int}
    (hlo : 31 < d) (hhi : d ≤ 62) :
    addDays ⟨y, 12, 1⟩ (d - 1) = ⟨y + 1, 1, d - 31⟩ := by
  have g1 := daysInMonth_twelve y
  have g2 := daysInMonth_one (y + 1)
  unfold addDays
  rw [if_pos (by omega)]
  have hsplit : (d - 1).toNat = ((d - 32).toNat + 1) + 30 := by omega
  rw [hsplit, Function.iterate_add_apply]
  rw [iterSucc_within_month 30 y 12 1 (by omega) (by omega)]
  rw [Function.iterate_add_apply]
  have hstep : succDay^[1] (⟨y, 12, 1 + ((30:Nat) : Int)⟩ : Civil) = ⟨y + 1, 1, 1⟩ := by
    have he : (1 : Int) + ((30:Nat) : Int) = 31 := by norm_num
    rw [he]
    simp only [Function.iterate_one]
    unfold succDay; dsimp only
    rw [if_neg (by omega), if_neg (by omega)]
  rw [hstep]
  rw [iterSucc_within_month _ (y + 1) 1 1 (by omega) (by omega)]
  congr 1
  omega

theorem dayOfWeek_range (c : Civil) : 0 ≤ dayOfWeek c ∧ dayOfWeek c < 7 := by
  unfold dayOfWeek; omega

theorem epochDays_mk_day (y m d : Int) :
    epochDays ⟨y, m, d⟩ = epochDays ⟨y, m, 1⟩ + (d - 1) := by
  simp only [epochDays]; ring

theorem valid_day_one {y m : Int} (h1 : 1 ≤ m) (h2 : m ≤ 12) : (Civil.mk y m 1).Valid := by
  rw [valid_mk]
  have := daysInMonth_ge y m
  omega

theorem setDate_one (y m d : Int) : setDate ⟨y, m, d⟩ 1 = ⟨y, m, 1⟩ := by
  unfold setDate
  dsimp only
  norm_num [addDays_zero]

theorem setDate_eq_addDays (y m d n : Int) :
    setDate ⟨y, m, d⟩ n = addDays ⟨y, m, 1⟩ (n - 1) := rfl

theorem addDays_add_nonneg (c : Civil) (a b : Int) (ha : 0 ≤ a) (hb : 0 ≤ b) :
    addDays c (a + b) = addDays (addDays c a) b := by
  unfold addDays
  rw [if_pos (by omega : (0:Int) ≤ a + b), if_pos ha, if_pos hb]
  rw [show (a + b).toNat = b.toNat + a.toNat by omega, Function.iterate_add_apply]

set_option maxRecDepth 40000 in
/-- C1: the claim says every resolved window contains its reference date.
The code violates this: with `startWeekOnSunday = true` the week offset
`diffToMonday = dayOfWeek` is added instead of subtracted, so for
Wednesday 2024-03-13 the week window is [2024-03-16, 2024-03-22], which
lies entirely after the reference date; independently, for Monday-based
weeks a month ending on a Sunday gets its padded end pulled back to the
preceding Saturday, so the month window of 2024-06-30 is
[2024-05-27, 2024-06-29] and misses its own reference date. -/
theorem C1_window_can_exclude_reference_date :
    (getStartAndEndDateByView .week true ⟨2024, 3, 13⟩ =
        ⟨⟨2024, 3, 13⟩, ⟨2024, 3, 16⟩, ⟨2024, 3, 22⟩⟩ ∧
      ¬ (civilLe (getStartAndEndDateByView .week true ⟨2024, 3, 13⟩).start ⟨2024, 3, 13⟩ ∧
         civilLe ⟨2024, 3, 13⟩ (getStartAndEndDateByView .week true ⟨2024, 3, 13⟩).stop)) ∧
    (getStartAndEndDateByView .month false ⟨2024, 6, 30⟩ =
        ⟨⟨2024, 6, 30⟩, ⟨2024, 5, 27⟩, ⟨2024, 6, 29⟩⟩ ∧
      ¬ (civilLe (getStartAndEndDateByView .month false ⟨2024, 6, 30⟩).start ⟨2024, 6, 30⟩ ∧
         civilLe ⟨2024, 6, 30⟩ (getStartAndEndDateByView .month false ⟨2024, 6, 30⟩).stop)) := by
  refine ⟨⟨by decide, by decide⟩, ⟨by decide, by decide⟩⟩

set_option maxRecDepth 40000 in
/-- C2: for the Monday convention and 2024-03-14 the code produces the
claimed window [2024-03-11, 2024-03-17]; but for the Sunday convention the
start is not the date shifted back to Sunday (2024-03-10) - the positive
`diffToMonday = dayOfWeek` shifts the Thursday forward to Saturday
2024-03-18. -/
theorem C2_week_start_sunday_convention_bug :
    getStartAndEndDateByView .week false ⟨2024, 3, 14⟩ =
      ⟨⟨2024, 3, 14⟩, ⟨2024, 3, 11⟩, ⟨2024, 3, 17⟩⟩ ∧
    specWeekStart true ⟨2024, 3, 14⟩ = ⟨2024, 3, 10⟩ ∧
    (getStartAndEndDateByView .week true ⟨2024, 3, 14⟩).start = ⟨2024, 3, 18⟩ ∧
    (⟨2024, 3, 18⟩ : Civil) ≠ ⟨2024, 3, 10⟩ := by
  refine ⟨by decide, by decide, by decide, by decide⟩

set_option maxRecDepth 40000 in
/-- C4 counterexample: in the year view `navigateBack` runs `setDate(1)`
after shifting the year, so from 2024-05-20 it lands on 2023-05-01, not on
the 2023-05-20 the claim prescribes. -/
theorem C4_counterexample_year_navigation :
    navigateBack .year ⟨2024, 5, 20⟩ = ⟨2023, 5, 1⟩ ∧
    navigateBack .year ⟨2024, 5, 20⟩ ≠ ⟨2023, 5, 20⟩ := by
  refine ⟨by decide, by decide⟩

/-- C6 counterexample: in search mode (`sortAllDay = !inSearchMode =
false`) the sorter still reorders by start value, so the server order
[b, a] with `b` starting after `a` comes back as [a, b]. -/
theorem C6_counterexample_search_order_not_preserved :
    checkAndSetSortFlag true = false ∧
    sortAppointmentByStart [⟨0, false, 100⟩, ⟨1, false, 50⟩] false =
      [⟨1, false, 50⟩, ⟨0, false, 100⟩] ∧
    ([⟨1, false, 50⟩, ⟨0, false, 100⟩] : List Appt) ≠ [⟨0, false, 100⟩, ⟨1, false, 50⟩] := by
  refine ⟨by decide, by decide, by decide⟩

/-- C9 counterexample: `fetchAppointments` runs `methodClear` (which
stores an empty appointment set) before dispatching, so after a non-abort
failure the previously rendered set [7] is gone rather than left in
place. -/
theorem C9_counterexample_previous_set_cleared :
    fetchAppointments true ⟨false, [7], none⟩ 1 .failureError =
      (⟨false, [], none⟩, [.errorLog]) ∧
    (fetchAppointments true ⟨false, [7], none⟩ 1 .failureError).1.appointments ≠ [7] := by
  refine ⟨rfl, by decide⟩

/-- C9 amended: on any failing fetch from an idle state, abort failures
emit nothing, other failures emit only the debug error log, the busy flag
and the pending-request handle are cleared, and the appointment set holds
the empty set that the fetch-start `methodClear` stored (not the pre-fetch
contents). -/
theorem C9_amended_failure_handling (debug : Bool) (st : FetchState) (reqId : Nat)
    (outcome : FetchOutcome) (hidle : st.loading = false)
    (hfail : outcome = .failureAbort ∨ outcome = .failureError) :
    (fetchAppointments debug st reqId outcome).1.loading = false ∧
    (fetchAppointments debug st reqId outcome).1.appointments = [] ∧
    (fetchAppointments debug st reqId outcome).1.pendingRequest = none ∧
    (outcome = .failureAbort → (fetchAppointments debug st reqId outcome).2 = []) ∧
    (outcome = .failureError →
      (fetchAppointments debug st reqId outcome).2 = if debug then [.errorLog] else []) := by
  rcases hfail with h | h <;> subst h <;>
    simp [fetchAppointments, hidle]

/-- C9 amended witness. -/
theorem C9_amended_failure_handling_witness :
    ((⟨false, [3, 4], some 9⟩ : FetchState).loading = false ∧
      ((FetchOutcome.failureAbort = .failureAbort ∨ FetchOutcome.failureAbort = .failureError))) ∧
    ((fetchAppointments true ⟨false, [3, 4], some 9⟩ 5 .failureAbort).1.loading = false ∧
     (fetchAppointments true ⟨false, [3, 4], some 9⟩ 5 .failureAbort).1.appointments = [] ∧
     (fetchAppointments true ⟨false, [3, 4], some 9⟩ 5 .failureAbort).1.pendingRequest = none ∧
     (FetchOutcome.failureAbort = .failureAbort →
       (fetchAppointments true ⟨false, [3, 4], some 9⟩ 5 .failureAbort).2 = []) ∧
     (FetchOutcome.failureAbort = .failureError →
       (fetchAppointments true ⟨false, [3, 4], some 9⟩ 5 .failureAbort).2 =
         if true then [.errorLog] else [])) :=
  ⟨⟨rfl, Or.inl rfl⟩,
    C9_amended_failure_handling true ⟨false, [3, 4], some 9⟩ 5 .failureAbort rfl (Or.inl rfl)⟩

theorem doesNotOverlap_spec {col : List Slot} {a : Slot} (h : doesNotOverlap col a = true) :
    ∀ x ∈ col, slotsDisjoint x a := by
  intro x hx
  unfold doesNotOverlap at h
  rw [List.all_eq_true] at h
  have hx2 := h x hx
  rw [decide_eq_true_iff] at hx2
  unfold slotsDisjoint
  omega

theorem pairwise_append_singleton {col : List Slot} {a : Slot}
    (hp : col.Pairwise slotsDisjoint) (h : ∀ x ∈ col, slotsDisjoint x a) :
    (col ++ [a]).Pairwise slotsDisjoint := by
  rw [List.pairwise_append]
  refine ⟨hp, List.pairwise_singleton _ _, ?_⟩
  intro x hx y hy
  rw [List.mem_singleton] at hy
  subst hy
  exact h x hx

theorem insertIntoFirstColumn_ok :
    ∀ (cols : List (List Slot)) (a : Slot) (cols' : List (List Slot)),
      insertIntoFirstColumn cols a = some cols' →
      (∀ col ∈ cols, col.Pairwise slotsDisjoint) →
      ∀ col ∈ cols', col.Pairwise slotsDisjoint := by
  intro cols
  induction cols with
  | nil => intro a cols' h; simp [insertIntoFirstColumn] at h
  | cons c rest ih =>
      intro a cols' h hok
      unfold insertIntoFirstColumn at h
      split_ifs at h with hd
      · rw [Option.some.injEq] at h
        subst h
        intro col hcol
        rcases List.mem_cons.mp hcol with hc | hc
        · subst hc
          exact pairwise_append_singleton (hok c (List.mem_cons_self c rest))
            (doesNotOverlap_spec hd)
        · exact hok col (List.mem_cons_of_mem _ hc)
      · rw [Option.map_eq_some'] at h
        obtain ⟨cols'', h1, h2⟩ := h
        subst h2
        intro col hcol
        rcases List.mem_cons.mp hcol with hc | hc
        · subst hc
          exact hok _ (List.mem_cons_self _ _)
        · exact ih a cols'' h1 (fun col2 hcol2 => hok col2 (List.mem_cons_of_mem _ hcol2)) col hc

theorem placeSlot_ok (all : List Slot) (a : Slot) (st : List (List Slot) × List Slot)
    (hok : ∀ col ∈ st.1, col.Pairwise slotsDisjoint) :
    ∀ col ∈ (placeSlot all st a).1, col.Pairwise slotsDisjoint := by
  unfold placeSlot
  cases h : insertIntoFirstColumn st.1 a with
  | some cols => exact insertIntoFirstColumn_ok _ _ _ h hok
  | none =>
      split_ifs with hc
      · exact hok
      · intro col hcol
        rcases List.mem_append.mp hcol with hin | hin
        · exact hok col hin
        · rw [List.mem_singleton] at hin
          subst hin
          exact List.pairwise_singleton _ _

theorem foldl_placeSlot_ok (all : List Slot) :
    ∀ (l : List Slot) (st : List (List Slot) × List Slot),
      (∀ col ∈ st.1, col.Pairwise slotsDisjoint) →
      ∀ col ∈ (l.foldl (placeSlot all) st).1, col.Pairwise slotsDisjoint := by
  intro l
  induction l with
  | nil => intro st h; simpa using h
  | cons x xs ih =>
      intro st h
      rw [List.foldl_cons]
      exact ih (placeSlot all st x) (placeSlot_ok all x st h)

/-- C8: in the column layout produced by `groupOverlappingAppointments`,
no two slots sharing a column overlap in time (every placement is guarded
by `doesNotOverlap` against the whole column), and the two overlapping
sample appointments A[09:00-10:00] and B[09:30-10:30] land in two distinct
single-slot columns. -/
theorem C8_columns_have_no_overlap :
    (∀ slots : List Slot,
      List.Forall (fun col => col.Pairwise slotsDisjoint) (groupDay slots).1) ∧
    groupDay [⟨0, 540, 600⟩, ⟨1, 570, 630⟩] =
      ([[⟨0, 540, 600⟩], [⟨1, 570, 630⟩]], []) := by
  constructor
  · intro slots
    rw [List.forall_iff_forall_mem]
    unfold groupDay
    exact foldl_placeSlot_ok _ _ ([], []) (by simp)
  · decide

theorem apptLe_total (flag : Bool) (x z : Appt) : apptLe flag x z ∨ apptLe flag z x := by
  unfold apptLe apptLeB
  cases flag <;> cases hx : x.allDay <;> cases hz : z.allDay <;> simp [hx, hz] <;> omega

theorem apptLe_trans (flag : Bool) (x y z : Appt) :
    apptLe flag x y → apptLe flag y z → apptLe flag x z := by
  unfold apptLe apptLeB
  cases flag <;> cases hx : x.allDay <;> cases hy : y.allDay <;> cases hz : z.allDay <;>
    simp [hx, hy, hz] <;> omega

instance (flag : Bool) : IsTotal Appt (apptLe flag) := ⟨apptLe_total flag⟩

instance (flag : Bool) : IsTrans Appt (apptLe flag) := ⟨apptLe_trans flag⟩

theorem apptLe_false_imp {a b : Appt} (h : apptLe false a b) : a.startMs ≤ b.startMs := by
  unfold apptLe apptLeB at h
  simpa using h

theorem apptLe_true_imp {a b : Appt} (h : apptLe true a b) :
    (a.allDay = true ∧ b.allDay = false) ∨ (a.allDay = b.allDay ∧ a.startMs ≤ b.startMs) := by
  unfold apptLe apptLeB at h
  cases ha : a.allDay <;> cases hb : b.allDay <;> simp [ha, hb] at h ⊢ <;> try exact h

/-- C6 amended: outside search mode the sorter returns a permutation
sorted with all-day records first and ascending starts within each class;
in search mode (`sortAllDay = false`) the result is still a permutation
sorted ascending by start value - only the all-day priority is dropped,
the server order is not preserved. -/
theorem C6_amended_sorting (l : List Appt) :
    (sortAppointmentByStart l (checkAndSetSortFlag false)).Perm l ∧
    List.Sorted (fun a b => (a.allDay = true ∧ b.allDay = false) ∨
      (a.allDay = b.allDay ∧ a.startMs ≤ b.startMs))
      (sortAppointmentByStart l (checkAndSetSortFlag false)) ∧
    (sortAppointmentByStart l (checkAndSetSortFlag true)).Perm l ∧
    List.Sorted (fun a b => a.startMs ≤ b.startMs)
      (sortAppointmentByStart l (checkAndSetSortFlag true)) := by
  refine ⟨List.perm_insertionSort _ _, ?_, List.perm_insertionSort _ _, ?_⟩
  · exact List.Pairwise.imp (fun h => apptLe_true_imp h)
      (List.sorted_insertionSort (apptLe true) l)
  · exact List.Pairwise.imp (fun h => apptLe_false_imp h)
      (List.sorted_insertionSort (apptLe false) l)

theorem shiftCivilTime_cancel (t : CivilTime) (hday : t.day.Valid)
    (hh1 : 0 ≤ t.hour) (hh2 : t.hour < 24) (hm1 : 0 ≤ t.minute) (hm2 : t.minute < 60)
    (hs1 : 0 ≤ t.second) (hs2 : t.second < 60) (sec : Int) :
    shiftCivilTime (shiftCivilTime t sec) (-sec) = t := by
  obtain ⟨day, h, m, s⟩ := t
  dsimp only at hh1 hh2 hm1 hm2 hs1 hs2 hday
  unfold shiftCivilTime
  dsimp only
  have hr1 : ((((h * 60 + m) * 60 + s + sec) % 86400 / 3600 * 60 +
      ((h * 60 + m) * 60 + s + sec) % 86400 % 3600 / 60) * 60 +
      ((h * 60 + m) * 60 + s + sec) % 86400 % 60) + -sec =
      (h * 60 + m) * 60 + s - 86400 * (((h * 60 + m) * 60 + s + sec) / 86400) := by
    omega
  rw [hr1]
  have hq2 : ((h * 60 + m) * 60 + s - 86400 * (((h * 60 + m) * 60 + s + sec) / 86400)) / 86400 =
      -(((h * 60 + m) * 60 + s + sec) / 86400) := by
    omega
  rw [hq2, addDays_neg_cancel hday]
  have hmod : ((h * 60 + m) * 60 + s - 86400 * (((h * 60 + m) * 60 + s + sec) / 86400)) % 86400 =
      (h * 60 + m) * 60 + s := by
    omega
  rw [hmod]
  simp only [CivilTime.mk.injEq, true_and]
  refine ⟨by omega, by omega, by omega⟩

theorem allday_clean_general (offMin : Int) (a : RawAppt) (hall : a.allDay = true)
    (hsv : a.startT.day.Valid) (hev : a.endT.day.Valid) :
    storedStartLocal offMin a = ⟨a.startT.day, 0, 0, 0⟩ ∧
    storedEndLocal offMin a = ⟨a.endT.day, 23, 59, 59⟩ := by
  unfold storedStartLocal storedEndLocal cleanAppointment
  rw [hall]
  simp only [if_true]
  unfold parseISOToLocal toISOStringCT
  constructor
  · have hc := shiftCivilTime_cancel ⟨a.startT.day, 0, 0, 0⟩ hsv (by norm_num) (by norm_num)
      (by norm_num) (by norm_num) (by norm_num) (by norm_num) (-(offMin * 60))
    rw [neg_neg] at hc
    exact hc
  · have hc := shiftCivilTime_cancel ⟨a.endT.day, 23, 59, 59⟩ hev (by norm_num) (by norm_num)
      (by norm_num) (by norm_num) (by norm_num) (by norm_num) (-(offMin * 60))
    rw [neg_neg] at hc
    exact hc

theorem allday_duration_general (offMin : Int) (a : RawAppt) (hall : a.allDay = true)
    (hsv : a.startT.day.Valid) (hev : a.endT.day.Valid) :
    (appointmentDuration offMin a).days =
      epochDays a.endT.day - epochDays a.startT.day + 1 ∧
    (appointmentDuration offMin a).hours = 0 ∧
    (appointmentDuration offMin a).minutes = 0 ∧
    (appointmentDuration offMin a).seconds = 0 := by
  obtain ⟨hcs, hce⟩ := allday_clean_general offMin a hall hsv hev
  unfold appointmentDuration
  rw [hall]
  simp only [if_true]
  rw [hcs, hce]
  unfold durationAllDay
  dsimp only
  refine ⟨?_, rfl, rfl, rfl⟩
  have : epochDays a.endT.day * 86400000 - epochDays a.startT.day * 86400000 =
      (epochDays a.endT.day - epochDays a.startT.day) * 86400000 := by ring
  rw [this, Int.mul_ediv_cancel _ (by norm_num)]

/-- C7: an all-day appointment with raw bounds 2024-05-01T08:00 and
2024-05-03T17:00 is normalized to local 2024-05-01T00:00:00 and local
2024-05-03T23:59:59 (the instants the stored ISO strings denote), with
`duration.days = 3`; in general the all-day duration is the inclusive
count of local calendar days between the endpoints, ignoring time of day,
and the hour / minute / second parts are zero. -/
theorem C7_allday_clamp_and_duration (offMin : Int) (a : RawAppt) (hall : a.allDay = true)
    (hsv : a.startT.day.Valid) (hev : a.endT.day.Valid) :
    (storedStartLocal offMin a = ⟨a.startT.day, 0, 0, 0⟩ ∧
     storedEndLocal offMin a = ⟨a.endT.day, 23, 59, 59⟩ ∧
     (appointmentDuration offMin a).days = epochDays a.endT.day - epochDays a.startT.day + 1 ∧
     (appointmentDuration offMin a).hours = 0 ∧
     (appointmentDuration offMin a).minutes = 0 ∧
     (appointmentDuration offMin a).seconds = 0) ∧
    (storedStartLocal offMin ⟨⟨⟨2024, 5, 1⟩, 8, 0, 0⟩, ⟨⟨2024, 5, 3⟩, 17, 0, 0⟩, true⟩ =
        ⟨⟨2024, 5, 1⟩, 0, 0, 0⟩ ∧
     storedEndLocal offMin ⟨⟨⟨2024, 5, 1⟩, 8, 0, 0⟩, ⟨⟨2024, 5, 3⟩, 17, 0, 0⟩, true⟩ =
        ⟨⟨2024, 5, 3⟩, 23, 59, 59⟩ ∧
     (appointmentDuration offMin
        ⟨⟨⟨2024, 5, 1⟩, 8, 0, 0⟩, ⟨⟨2024, 5, 3⟩, 17, 0, 0⟩, true⟩).days = 3) := by
  obtain ⟨g1, g2⟩ := allday_clean_general offMin a hall hsv hev
  obtain ⟨g3, g4, g5, g6⟩ := allday_duration_general offMin a hall hsv hev
  obtain ⟨c1, c2⟩ := allday_clean_general offMin
    ⟨⟨⟨2024, 5, 1⟩, 8, 0, 0⟩, ⟨⟨2024, 5, 3⟩, 17, 0, 0⟩, true⟩ rfl (by decide) (by decide)
  obtain ⟨c3, _, _, _⟩ := allday_duration_general offMin
    ⟨⟨⟨2024, 5, 1⟩, 8, 0, 0⟩, ⟨⟨2024, 5, 3⟩, 17, 0, 0⟩, true⟩ rfl (by decide) (by decide)
  refine ⟨⟨g1, g2, g3, g4, g5, g6⟩, c1, c2, ?_⟩
  rw [c3]
  decide

/-- C7 witness. -/
theorem C7_allday_clamp_and_duration_witness :
    ((⟨⟨⟨2024, 5, 1⟩, 8, 0, 0⟩, ⟨⟨2024, 5, 3⟩, 17, 0, 0⟩, true⟩ : RawAppt).allDay = true ∧
     (⟨⟨⟨2024, 5, 1⟩, 8, 0, 0⟩, ⟨⟨2024, 5, 3⟩, 17, 0, 0⟩, true⟩ : RawAppt).startT.day.Valid ∧
     (⟨⟨⟨2024, 5, 1⟩, 8, 0, 0⟩, ⟨⟨2024, 5, 3⟩, 17, 0, 0⟩, true⟩ : RawAppt).endT.day.Valid) ∧
    ((storedStartLocal 120 ⟨⟨⟨2024, 5, 1⟩, 8, 0, 0⟩, ⟨⟨2024, 5, 3⟩, 17, 0, 0⟩, true⟩ =
        ⟨(⟨⟨⟨2024, 5, 1⟩, 8, 0, 0⟩, ⟨⟨2024, 5, 3⟩, 17, 0, 0⟩, true⟩ : RawAppt).startT.day, 0, 0, 0⟩ ∧
      storedEndLocal 120 ⟨⟨⟨2024, 5, 1⟩, 8, 0, 0⟩, ⟨⟨2024, 5, 3⟩, 17, 0, 0⟩, true⟩ =
        ⟨(⟨⟨⟨2024, 5, 1⟩, 8, 0, 0⟩, ⟨⟨2024, 5, 3⟩, 17, 0, 0⟩, true⟩ : RawAppt).endT.day, 23, 59, 59⟩ ∧
      (appointmentDuration 120 ⟨⟨⟨2024, 5, 1⟩, 8, 0, 0⟩, ⟨⟨2024, 5, 3⟩, 17, 0, 0⟩, true⟩).days =
        epochDays (⟨⟨⟨2024, 5, 1⟩, 8, 0, 0⟩, ⟨⟨2024, 5, 3⟩, 17, 0, 0⟩, true⟩ : RawAppt).endT.day -
          epochDays (⟨⟨⟨2024, 5, 1⟩, 8, 0, 0⟩, ⟨⟨2024, 5, 3⟩, 17, 0, 0⟩, true⟩ : RawAppt).startT.day + 1 ∧
      (appointmentDuration 120 ⟨⟨⟨2024, 5, 1⟩, 8, 0, 0⟩, ⟨⟨2024, 5, 3⟩, 17, 0, 0⟩, true⟩).hours = 0 ∧
      (appointmentDuration 120 ⟨⟨⟨2024, 5, 1⟩, 8, 0, 0⟩, ⟨⟨2024, 5, 3⟩, 17, 0, 0⟩, true⟩).minutes = 0 ∧
      (appointmentDuration 120 ⟨⟨⟨2024, 5, 1⟩, 8, 0, 0⟩, ⟨⟨2024, 5, 3⟩, 17, 0, 0⟩, true⟩).seconds = 0) ∧
     (storedStartLocal 120 ⟨⟨⟨2024, 5, 1⟩, 8, 0, 0⟩, ⟨⟨2024, 5, 3⟩, 17, 0, 0⟩, true⟩ =
        ⟨⟨2024, 5, 1⟩, 0, 0, 0⟩ ∧
      storedEndLocal 120 ⟨⟨⟨2024, 5, 1⟩, 8, 0, 0⟩, ⟨⟨2024, 5, 3⟩, 17, 0, 0⟩, true⟩ =
        ⟨⟨2024, 5, 3⟩, 23, 59, 59⟩ ∧
      (appointmentDuration 120
        ⟨⟨⟨2024, 5, 1⟩, 8, 0, 0⟩, ⟨⟨2024, 5, 3⟩, 17, 0, 0⟩, true⟩).days = 3)) :=
  ⟨⟨rfl, by decide, by decide⟩,
    C7_allday_clamp_and_duration 120 ⟨⟨⟨2024, 5, 1⟩, 8, 0, 0⟩, ⟨⟨2024, 5, 3⟩, 17, 0, 0⟩, true⟩
      rfl (by decide) (by decide)⟩

/-- C10: the stored all-day bounds are `toISOString` renderings, i.e. UTC
fields of the local midnight / 23:59:59 instants: with UTC offset zero the
stored clocks read 00:00:00 and 23:59:59, and with any other realizable
offset (up to +-14 hours, nonzero) both stored clocks are shifted away
from those values. -/
theorem C10_stored_clock_depends_on_offset (offMin : Int) (a : RawAppt)
    (hall : a.allDay = true) (hoff1 : -840 ≤ offMin) (hoff2 : offMin ≤ 840) :
    (offMin = 0 →
      (cleanAppointment offMin a).startT = ⟨a.startT.day, 0, 0, 0⟩ ∧
      (cleanAppointment offMin a).endT = ⟨a.endT.day, 23, 59, 59⟩) ∧
    (offMin ≠ 0 →
      ¬ ((cleanAppointment offMin a).startT.hour = 0 ∧
         (cleanAppointment offMin a).startT.minute = 0 ∧
         (cleanAppointment offMin a).startT.second = 0) ∧
      ¬ ((cleanAppointment offMin a).endT.hour = 23 ∧
         (cleanAppointment offMin a).endT.minute = 59 ∧
         (cleanAppointment offMin a).endT.second = 59)) := by
  unfold cleanAppointment
  rw [hall]
  simp only [if_true]
  unfold toISOStringCT shiftCivilTime
  dsimp only
  constructor
  · intro h0
    subst h0
    norm_num [addDays_zero]
  · intro hne
    constructor <;> dsimp only <;> omega

/-- C10 witness. -/
theorem C10_stored_clock_depends_on_offset_witness :
    ((⟨⟨⟨2024, 5, 1⟩, 8, 0, 0⟩, ⟨⟨2024, 5, 3⟩, 17, 0, 0⟩, true⟩ : RawAppt).allDay = true ∧
      (-840 : Int) ≤ 120 ∧ (120 : Int) ≤ 840) ∧
    (((120 : Int) = 0 →
      (cleanAppointment 120 ⟨⟨⟨2024, 5, 1⟩, 8, 0, 0⟩, ⟨⟨2024, 5, 3⟩, 17, 0, 0⟩, true⟩).startT =
        ⟨(⟨⟨⟨2024, 5, 1⟩, 8, 0, 0⟩, ⟨⟨2024, 5, 3⟩, 17, 0, 0⟩, true⟩ : RawAppt).startT.day, 0, 0, 0⟩ ∧
      (cleanAppointment 120 ⟨⟨⟨2024, 5, 1⟩, 8, 0, 0⟩, ⟨⟨2024, 5, 3⟩, 17, 0, 0⟩, true⟩).endT =
        ⟨(⟨⟨⟨2024, 5, 1⟩, 8, 0, 0⟩, ⟨⟨2024, 5, 3⟩, 17, 0, 0⟩, true⟩ : RawAppt).endT.day, 23, 59, 59⟩) ∧
     ((120 : Int) ≠ 0 →
      ¬ ((cleanAppointment 120 ⟨⟨⟨2024, 5, 1⟩, 8, 0, 0⟩, ⟨⟨2024, 5, 3⟩, 17, 0, 0⟩, true⟩).startT.hour = 0 ∧
         (cleanAppointment 120 ⟨⟨⟨2024, 5, 1⟩, 8, 0, 0⟩, ⟨⟨2024, 5, 3⟩, 17, 0, 0⟩, true⟩).startT.minute = 0 ∧
         (cleanAppointment 120 ⟨⟨⟨2024, 5, 1⟩, 8, 0, 0⟩, ⟨⟨2024, 5, 3⟩, 17, 0, 0⟩, true⟩).startT.second = 0) ∧
      ¬ ((cleanAppointment 120 ⟨⟨⟨2024, 5, 1⟩, 8, 0, 0⟩, ⟨⟨2024, 5, 3⟩, 17, 0, 0⟩, true⟩).endT.hour = 23 ∧
         (cleanAppointment 120 ⟨⟨⟨2024, 5, 1⟩, 8, 0, 0⟩, ⟨⟨2024, 5, 3⟩, 17, 0, 0⟩, true⟩).endT.minute = 59 ∧
         (cleanAppointment 120 ⟨⟨⟨2024, 5, 1⟩, 8, 0, 0⟩, ⟨⟨2024, 5, 3⟩, 17, 0, 0⟩, true⟩).endT.second = 59))) :=
  ⟨⟨rfl, by norm_num, by norm_num⟩,
    C10_stored_clock_depends_on_offset 120 ⟨⟨⟨2024, 5, 1⟩, 8, 0, 0⟩, ⟨⟨2024, 5, 3⟩, 17, 0, 0⟩, true⟩
      rfl (by norm_num) (by norm_num)⟩

set_option maxRecDepth 200000 in
/-- C5: `setAppointmentExtras` does produce one display segment per
calendar day the appointment touches, but its visibility flags do not
implement the claim: the week test compares each day against that day's
own week (hence `visibleInWeek` is identically true), and the month grid
is built from the wall-clock date rather than the reference date.  For an
appointment covering 2024-03-01 .. 2024-03-12 and the rendered week grid
2024-03-11..2024-03-17 of reference date 2024-03-14 (Monday weeks), every
segment, including the one for 2024-03-01 far outside that grid, carries
`visibleInWeek = true`. -/
theorem C5_visibility_flags_bug :
    (displayDatesFor false ⟨2024, 3, 15⟩ ⟨⟨2024, 3, 1⟩, 9, 0, 0⟩
        ⟨⟨2024, 3, 12⟩, 10, 0, 0⟩ false).map (fun s => s.date) =
      [⟨2024, 3, 1⟩, ⟨2024, 3, 2⟩, ⟨2024, 3, 3⟩, ⟨2024, 3, 4⟩, ⟨2024, 3, 5⟩, ⟨2024, 3, 6⟩,
       ⟨2024, 3, 7⟩, ⟨2024, 3, 8⟩, ⟨2024, 3, 9⟩, ⟨2024, 3, 10⟩, ⟨2024, 3, 11⟩, ⟨2024, 3, 12⟩] ∧
    (displayDatesFor false ⟨2024, 3, 15⟩ ⟨⟨2024, 3, 1⟩, 9, 0, 0⟩
        ⟨⟨2024, 3, 12⟩, 10, 0, 0⟩ false).all (fun s => s.visibleInWeek) = true ∧
    ((displayDatesFor false ⟨2024, 3, 15⟩ ⟨⟨2024, 3, 1⟩, 9, 0, 0⟩
        ⟨⟨2024, 3, 12⟩, 10, 0, 0⟩ false).head?).map (fun s => s.visibleInWeek) = some true ∧
    getStartAndEndDateByView .week false ⟨2024, 3, 14⟩ =
      ⟨⟨2024, 3, 14⟩, ⟨2024, 3, 11⟩, ⟨2024, 3, 17⟩⟩ ∧
    ¬ (civilLe (getStartAndEndDateByView .week false ⟨2024, 3, 14⟩).start ⟨2024, 3, 1⟩ ∧
       civilLe ⟨2024, 3, 1⟩ (getStartAndEndDateByView .week false ⟨2024, 3, 14⟩).stop) := by
  refine ⟨by decide, by decide, by decide, by decide, by decide⟩

theorem month_start_def (sun : Bool) (c : Civil) :
    (getStartAndEndDateByView .month sun c).start =
      (if sun then setDate (setDate c 1) ((setDate c 1).d - dayOfWeek (setDate c 1))
       else setDate (setDate c 1) ((setDate c 1).d -
         (if dayOfWeek (setDate c 1) = 0 then 6 else dayOfWeek (setDate c 1) - 1))) := rfl

theorem month_stop_def (sun : Bool) (c : Civil) :
    (getStartAndEndDateByView .month sun c).stop =
      (if sun then setDate (rolledMonthLast c) ((rolledMonthLast c).d + (6 - dayOfWeek (rolledMonthLast c)))
       else setDate (rolledMonthLast c) ((rolledMonthLast c).d +
         (if dayOfWeek (rolledMonthLast c) = 0 then -1 else 7 - dayOfWeek (rolledMonthLast c)))) := rfl

theorem lastOfMonth_valid {c : Civil} (h : c.Valid) : (lastOfMonth c).Valid := by
  obtain ⟨y, m, d⟩ := c
  have h1 : 1 ≤ m := h.1
  have h2 : m ≤ 12 := h.2.1
  unfold lastOfMonth
  dsimp only
  rw [valid_mk]
  have := daysInMonth_ge y m
  exact ⟨h1, h2, by omega, le_refl _⟩

theorem rolledMonthLast_cases (c : Civil) (h : c.Valid) :
    (c.d ≤ daysInMonth (nextMonthPair c).1 (nextMonthPair c).2 ∧
      rolledMonthLast c = lastOfMonth c) ∨
    (daysInMonth (nextMonthPair c).1 (nextMonthPair c).2 < c.d ∧ c.m ≤ 10 ∧
      rolledMonthLast c = ⟨c.y, c.m + 1, daysInMonth c.y (c.m + 1)⟩) := by
  obtain ⟨y, m, d⟩ := c
  have h1 : 1 ≤ m := h.1
  have h2 : m ≤ 12 := h.2.1
  have h3 : 1 ≤ d := h.2.2.1
  have h4 : d ≤ daysInMonth y m := h.2.2.2
  have hle := daysInMonth_le y m
  unfold rolledMonthLast setMonthJS nextMonthPair lastOfMonth
  dsimp only
  by_cases hm : m ≤ 11
  · have hdiv : m / 12 = 0 := by omega
    have hmod : m % 12 = m := by omega
    rw [hdiv, hmod, if_pos hm]
    simp only [add_zero]
    by_cases hfit : d ≤ daysInMonth y (m + 1)
    · left
      refine ⟨hfit, ?_⟩
      have he1 : addDays ⟨y, m + 1, 1⟩ (d - 1) = ⟨y, m + 1, 1 + (d - 1)⟩ :=
        addDays_within_month (by omega) (by omega) (by omega)
      rw [he1, setDate_zero]
      unfold predDay
      dsimp only
      rw [if_neg (by omega : ¬ (1:Int) < 1), if_pos (by omega : (1:Int) < m + 1)]
      simp only [Civil.mk.injEq, Int.add_sub_cancel, true_and, and_self]
    · right
      have hm10 : m ≤ 10 := by
        by_contra hcon
        have hm11 : m = 11 := by omega
        subst hm11
        have h31 := daysInMonth_twelve y
        norm_num at hfit
        omega
      refine ⟨by omega, hm10, ?_⟩
      have hc28 := daysInMonth_ge y (m + 1)
      have hc28b := daysInMonth_ge y (m + 1 + 1)
      have he1 : addDays ⟨y, m + 1, 1⟩ (d - 1) = ⟨y, m + 1 + 1, d - daysInMonth y (m + 1)⟩ :=
        addDays_rollover (by omega) (by omega) (by omega) (by omega)
      rw [he1, setDate_zero]
      unfold predDay
      dsimp only
      rw [if_neg (by omega : ¬ (1:Int) < 1), if_pos (by omega : (1:Int) < m + 1 + 1)]
      simp only [Civil.mk.injEq, Int.add_sub_cancel, true_and, and_self]
  · have hm12 : m = 12 := by omega
    subst hm12
    have hdiv : (12 : Int) / 12 = 1 := by norm_num
    have hmod : (12 : Int) % 12 = 0 := by norm_num
    rw [hdiv, hmod, if_neg (by omega : ¬ (12:Int) ≤ 11)]
    simp only [zero_add]
    left
    have h31 := daysInMonth_one (y + 1)
    have h31b := daysInMonth_twelve y
    refine ⟨by omega, ?_⟩
    have he1 : addDays ⟨y + 1, 1, 1⟩ (d - 1) = ⟨y + 1, 1, 1 + (d - 1)⟩ :=
      addDays_within_month (by omega) (by omega) (by omega)
    rw [he1, setDate_zero]
    unfold predDay
    dsimp only
    rw [if_neg (by omega : ¬ (1:Int) < 1), if_neg (by omega : ¬ (1:Int) < 1)]
    simp only [Civil.mk.injEq, true_and]
    omega

theorem rolledMonthLast_valid {c : Civil} (h : c.Valid) : (rolledMonthLast c).Valid := by
  rcases rolledMonthLast_cases c h with ⟨_, he⟩ | ⟨_, hm10, he⟩
  · rw [he]; exact lastOfMonth_valid h
  · rw [he, valid_mk]
    have h1 := h.1
    have := daysInMonth_ge c.y (c.m + 1)
    exact ⟨by omega, by omega, by omega, le_refl _⟩

theorem rolledMonthLast_day_ge {c : Civil} (h : c.Valid) : 2 ≤ (rolledMonthLast c).d := by
  rcases rolledMonthLast_cases c h with ⟨_, he⟩ | ⟨_, hm10, he⟩ <;> rw [he]
  · unfold lastOfMonth
    dsimp only
    have := daysInMonth_ge c.y c.m
    omega
  · dsimp only
    have := daysInMonth_ge c.y (c.m + 1)
    omega

theorem setDate_add_of_valid {L : Civil} (hLv : L.Valid) {X : Int} (hX : 0 ≤ X) :
    setDate L (L.d + X) = addDays L X := by
  obtain ⟨Ly, Lm, Ld⟩ := L
  have h3 : 1 ≤ Ld := hLv.2.2.1
  have h4 : Ld ≤ daysInMonth Ly Lm := hLv.2.2.2
  unfold setDate
  dsimp only
  have harg : Ld + X - 1 = (Ld - 1) + X := by ring
  rw [harg, addDays_add_nonneg _ _ _ (by omega) hX]
  have hin : addDays ⟨Ly, Lm, 1⟩ (Ld - 1) = ⟨Ly, Lm, 1 + (Ld - 1)⟩ :=
    addDays_within_month (by omega) (by omega) (by omega)
  rw [hin]
  have : (1 : Int) + (Ld - 1) = Ld := by ring
  rw [this]

theorem setDate_pred_of_valid {L : Civil} (hLv : L.Valid) (h2 : 2 ≤ L.d) :
    setDate L (L.d + -1) = predDay L := by
  obtain ⟨Ly, Lm, Ld⟩ := L
  have h4 : Ld ≤ daysInMonth Ly Lm := hLv.2.2.2
  have h2' : 2 ≤ Ld := h2
  unfold setDate
  dsimp only
  have hin : addDays ⟨Ly, Lm, 1⟩ (Ld + -1 - 1) = ⟨Ly, Lm, 1 + (Ld + -1 - 1)⟩ :=
    addDays_within_month (by omega) (by omega) (by omega)
  rw [hin]
  unfold predDay
  dsimp only
  rw [if_pos (by omega : (1:Int) < Ld)]
  simp only [Civil.mk.injEq, true_and]
  omega

theorem month_start_eq_spec (sun : Bool) (c : Civil) (h : c.Valid) :
    (getStartAndEndDateByView .month sun c).start = specMonthStart sun c := by
  obtain ⟨y, m, d⟩ := c
  rw [month_start_def, setDate_one]
  obtain ⟨hd0, hd7⟩ := dayOfWeek_range ⟨y, m, 1⟩
  unfold specMonthStart specWeekStart firstWeekday
  dsimp only
  cases sun
  · rw [if_neg (by decide : ¬ (false = true)), if_neg (by decide : ¬ (false = true)),
      setDate_eq_addDays]
    congr 1
    split_ifs <;> omega
  · rw [if_pos rfl, if_pos rfl, setDate_eq_addDays]
    congr 1
    omega

/-- C3 amended: the month-window start is the first-of-month shifted back
to the first weekday of its week, exactly as claimed.  The end, however,
is computed from `rolledMonthLast` - the last day of the month that
`setMonth(+1)`; `setDate(0)` lands on, which is the claimed month only
when the reference day-of-month fits in the following month - padded
forward to the last weekday of its week, except that for Monday-based
weeks a month-end falling on Sunday is pulled back one day to Saturday.
The inclusive window length is a multiple of 7 exactly outside that
Sunday case; in it, the length is congruent to 6 mod 7. -/
theorem C3_amended_month_window (sun : Bool) (c : Civil) (h : c.Valid) :
    (getStartAndEndDateByView .month sun c).start = specMonthStart sun c ∧
    (c.d ≤ daysInMonth (nextMonthPair c).1 (nextMonthPair c).2 →
      rolledMonthLast c = lastOfMonth c) ∧
    ((sun = true ∨ dayOfWeek (rolledMonthLast c) ≠ 0) →
      (getStartAndEndDateByView .month sun c).stop = specWeekEnd sun (rolledMonthLast c)) ∧
    (sun = false → dayOfWeek (rolledMonthLast c) = 0 →
      (getStartAndEndDateByView .month sun c).stop = predDay (rolledMonthLast c)) ∧
    ((sun = true ∨ dayOfWeek (rolledMonthLast c) ≠ 0) →
      (epochDays (getStartAndEndDateByView .month sun c).stop -
        epochDays (getStartAndEndDateByView .month sun c).start + 1) % 7 = 0) ∧
    (sun = false → dayOfWeek (rolledMonthLast c) = 0 →
      (epochDays (getStartAndEndDateByView .month sun c).stop -
        epochDays (getStartAndEndDateByView .month sun c).start + 1) % 7 = 6) := by
  have hstart := month_start_eq_spec sun c h
  have hLv := rolledMonthLast_valid h
  have hLd2 := rolledMonthLast_day_ge h
  obtain ⟨hL0, hL7⟩ := dayOfWeek_range (rolledMonthLast c)
  obtain ⟨h10, h17⟩ := dayOfWeek_range ⟨c.y, c.m, 1⟩
  have hc1v : (Civil.mk c.y c.m 1).Valid := valid_day_one h.1 h.2.1
  have hdowL : dayOfWeek (rolledMonthLast c) = (epochDays (rolledMonthLast c) + 4) % 7 := rfl
  have hdow1 : dayOfWeek ⟨c.y, c.m, 1⟩ = (epochDays ⟨c.y, c.m, 1⟩ + 4) % 7 := rfl
  have hnr : c.d ≤ daysInMonth (nextMonthPair c).1 (nextMonthPair c).2 →
      rolledMonthLast c = lastOfMonth c := by
    intro hle
    rcases rolledMonthLast_cases c h with ⟨_, he⟩ | ⟨hlt, _, _⟩
    · exact he
    · omega
  have heStartF : sun = false →
      epochDays (getStartAndEndDateByView .month sun c).start =
        epochDays ⟨c.y, c.m, 1⟩ - ((dayOfWeek ⟨c.y, c.m, 1⟩ - 1 + 7) % 7) := by
    intro hsf
    rw [hstart, hsf]
    unfold specMonthStart specWeekStart firstWeekday
    rw [if_neg (by decide : ¬ (false = true)), epochDays_addDays hc1v]
    ring
  have heStartT : sun = true →
      epochDays (getStartAndEndDateByView .month sun c).start =
        epochDays ⟨c.y, c.m, 1⟩ - ((dayOfWeek ⟨c.y, c.m, 1⟩ - 0 + 7) % 7) := by
    intro hst
    rw [hstart, hst]
    unfold specMonthStart specWeekStart firstWeekday
    rw [if_pos rfl, epochDays_addDays hc1v]
    ring
  have hstop1 : (sun = true ∨ dayOfWeek (rolledMonthLast c) ≠ 0) →
      (getStartAndEndDateByView .month sun c).stop = specWeekEnd sun (rolledMonthLast c) := by
    intro hcase
    rw [month_stop_def]
    unfold specWeekEnd firstWeekday
    cases sun
    · have hne : dayOfWeek (rolledMonthLast c) ≠ 0 := by
        rcases hcase with hs | hs
        · exact absurd hs (by decide)
        · exact hs
      rw [if_neg (by decide : ¬ (false = true)), if_neg (by decide : ¬ (false = true)),
        if_neg hne, setDate_add_of_valid hLv (by omega)]
      congr 1
      omega
    · rw [if_pos rfl, if_pos rfl, setDate_add_of_valid hLv (by omega)]
      congr 1
      omega
  have hstop2 : sun = false → dayOfWeek (rolledMonthLast c) = 0 →
      (getStartAndEndDateByView .month sun c).stop = predDay (rolledMonthLast c) := by
    intro hsf hz
    subst hsf
    rw [month_stop_def]
    rw [if_neg (by decide : ¬ (false = true)), if_pos hz]
    exact setDate_pred_of_valid hLv hLd2
  refine ⟨hstart, hnr, hstop1, hstop2, ?_, ?_⟩
  · intro hcase
    rw [hstop1 hcase]
    cases sun
    · have hne : dayOfWeek (rolledMonthLast c) ≠ 0 := by
        rcases hcase with hs | hs
        · exact absurd hs (by decide)
        · exact hs
      unfold specWeekEnd firstWeekday
      rw [if_neg (by decide : ¬ (false = true)), epochDays_addDays hLv, heStartF rfl]
      rw [hdowL] at hne ⊢
      rw [hdow1]
      omega
    · unfold specWeekEnd firstWeekday
      rw [if_pos rfl, epochDays_addDays hLv, heStartT rfl]
      rw [hdowL, hdow1]
      omega
  · intro hsf hz
    subst hsf
    rw [hstop2 rfl hz, epochDays_predDay hLv, heStartF rfl]
    rw [hdowL] at hz
    rw [hdow1]
    omega

set_option maxRecDepth 100000 in
/-- C3 counterexample: for 2024-01-31 (Monday weeks) the computed month
end is 2024-03-03, not the padded last-of-January 2024-02-04 the claim
prescribes (the `setMonth` rollover moved the end into February); and for
2024-03-15 (March 2024 ends on a Sunday) the window length is congruent
to 6 mod 7, refuting the multiple-of-7 claim. -/
theorem C3_counterexample_month_end :
    (getStartAndEndDateByView .month false ⟨2024, 1, 31⟩).stop = ⟨2024, 3, 3⟩ ∧
    specMonthEnd false ⟨2024, 1, 31⟩ = ⟨2024, 2, 4⟩ ∧
    (getStartAndEndDateByView .month false ⟨2024, 1, 31⟩).stop ≠
      specMonthEnd false ⟨2024, 1, 31⟩ ∧
    (epochDays (getStartAndEndDateByView .month false ⟨2024, 3, 15⟩).stop -
      epochDays (getStartAndEndDateByView .month false ⟨2024, 3, 15⟩).start + 1) % 7 = 6 := by
  refine ⟨by decide, by decide, by decide, by decide⟩

/-- C3 amended witness. -/
theorem C3_amended_month_window_witness :
    (⟨2024, 5, 15⟩ : Civil).Valid ∧
    ((getStartAndEndDateByView .month true ⟨2024, 5, 15⟩).start =
        specMonthStart true ⟨2024, 5, 15⟩ ∧
      ((⟨2024, 5, 15⟩ : Civil).d ≤
          daysInMonth (nextMonthPair ⟨2024, 5, 15⟩).1 (nextMonthPair ⟨2024, 5, 15⟩).2 →
        rolledMonthLast ⟨2024, 5, 15⟩ = lastOfMonth ⟨2024, 5, 15⟩) ∧
      ((true = true ∨ dayOfWeek (rolledMonthLast ⟨2024, 5, 15⟩) ≠ 0) →
        (getStartAndEndDateByView .month true ⟨2024, 5, 15⟩).stop =
          specWeekEnd true (rolledMonthLast ⟨2024, 5, 15⟩)) ∧
      (true = false → dayOfWeek (rolledMonthLast ⟨2024, 5, 15⟩) = 0 →
        (getStartAndEndDateByView .month true ⟨2024, 5, 15⟩).stop =
          predDay (rolledMonthLast ⟨2024, 5, 15⟩)) ∧
      ((true = true ∨ dayOfWeek (rolledMonthLast ⟨2024, 5, 15⟩) ≠ 0) →
        (epochDays (getStartAndEndDateByView .month true ⟨2024, 5, 15⟩).stop -
          epochDays (getStartAndEndDateByView .month true ⟨2024, 5, 15⟩).start + 1) % 7 = 0) ∧
      (true = false → dayOfWeek (rolledMonthLast ⟨2024, 5, 15⟩) = 0 →
        (epochDays (getStartAndEndDateByView .month true ⟨2024, 5, 15⟩).stop -
          epochDays (getStartAndEndDateByView .month true ⟨2024, 5, 15⟩).start + 1) % 7 = 6)) :=
  ⟨by decide, C3_amended_month_window true ⟨2024, 5, 15⟩ (by decide)⟩

theorem monthNav_fit {y' M d : Int} (h3 : 1 ≤ d) (hfit : d ≤ daysInMonth y' M) :
    (if (addDays ⟨y', M, 1⟩ (d - 1)).d ≠ d then setDate (addDays ⟨y', M, 1⟩ (d - 1)) 1
     else addDays ⟨y', M, 1⟩ (d - 1)) = ⟨y', M, d⟩ := by
  have hnd : addDays ⟨y', M, 1⟩ (d - 1) = ⟨y', M, d⟩ := by
    rw [addDays_within_month (by omega) (by omega) (by omega)]
    congr 1
    ring
  rw [hnd]
  rw [if_neg (by dsimp only; omega)]

theorem monthNav_roll {y' M d : Int} (h1 : 1 ≤ M) (hM : M ≤ 11) (h4 : d ≤ 31)
    (hroll : daysInMonth y' M < d) :
    (if (addDays ⟨y', M, 1⟩ (d - 1)).d ≠ d then setDate (addDays ⟨y', M, 1⟩ (d - 1)) 1
     else addDays ⟨y', M, 1⟩ (d - 1)) = ⟨y', M + 1, 1⟩ := by
  have g1 := daysInMonth_ge y' M
  have g2 := daysInMonth_ge y' (M + 1)
  have hnd : addDays ⟨y', M, 1⟩ (d - 1) = ⟨y', M + 1, d - daysInMonth y' M⟩ :=
    addDays_rollover h1 hM hroll (by omega)
  rw [hnd]
  rw [if_pos (by dsimp only; omega)]
  exact setDate_one _ _ _

theorem yearNav_fit {y' M d : Int} (h3 : 1 ≤ d) (hfit : d ≤ daysInMonth y' M) :
    setDate (addDays ⟨y', M, 1⟩ (d - 1)) 1 = ⟨y', M, 1⟩ := by
  have hnd : addDays ⟨y', M, 1⟩ (d - 1) = ⟨y', M, d⟩ := by
    rw [addDays_within_month (by omega) (by omega) (by omega)]
    congr 1
    ring
  rw [hnd]
  exact setDate_one _ _ _

theorem yearNav_roll {y' M d : Int} (h1 : 1 ≤ M) (hM : M ≤ 11) (h4 : d ≤ 31)
    (hroll : daysInMonth y' M < d) :
    setDate (addDays ⟨y', M, 1⟩ (d - 1)) 1 = ⟨y', M + 1, 1⟩ := by
  have g1 := daysInMonth_ge y' M
  have g2 := daysInMonth_ge y' (M + 1)
  have hnd : addDays ⟨y', M, 1⟩ (d - 1) = ⟨y', M + 1, d - daysInMonth y' M⟩ :=
    addDays_rollover h1 hM hroll (by omega)
  rw [hnd]
  exact setDate_one _ _ _

theorem navBack_week_epoch (c : Civil) (h : c.Valid) :
    epochDays (navigateBack .week c) = epochDays c - 7 := by
  obtain ⟨y, m, d⟩ := c
  have hdef : navigateBack .week ⟨y, m, d⟩ = setDate ⟨y, m, d⟩ (d - 7) := rfl
  rw [hdef, setDate_eq_addDays, epochDays_addDays (valid_day_one h.1 h.2.1),
    epochDays_mk_day y m d]
  ring

theorem navFwd_week_epoch (c : Civil) (h : c.Valid) :
    epochDays (navigateForward .week c) = epochDays c + 7 := by
  obtain ⟨y, m, d⟩ := c
  have hdef : navigateForward .week ⟨y, m, d⟩ = setDate ⟨y, m, d⟩ (d + 7) := rfl
  rw [hdef, setDate_eq_addDays, epochDays_addDays (valid_day_one h.1 h.2.1),
    epochDays_mk_day y m d]
  ring

theorem navBack_day_epoch (c : Civil) (h : c.Valid) :
    epochDays (navigateBack .day c) = epochDays c - 1 := by
  obtain ⟨y, m, d⟩ := c
  have hdef : navigateBack .day ⟨y, m, d⟩ = setDate ⟨y, m, d⟩ (d - 1) := rfl
  rw [hdef, setDate_eq_addDays, epochDays_addDays (valid_day_one h.1 h.2.1),
    epochDays_mk_day y m d]
  ring

theorem navFwd_day_epoch (c : Civil) (h : c.Valid) :
    epochDays (navigateForward .day c) = epochDays c + 1 := by
  obtain ⟨y, m, d⟩ := c
  have hdef : navigateForward .day ⟨y, m, d⟩ = setDate ⟨y, m, d⟩ (d + 1) := rfl
  rw [hdef, setDate_eq_addDays, epochDays_addDays (valid_day_one h.1 h.2.1),
    epochDays_mk_day y m d]
  ring

theorem navBack_year_fit (c : Civil) (h : c.Valid)
    (hfit : c.d ≤ daysInMonth (c.y - 1) c.m) :
    navigateBack .year c = ⟨c.y - 1, c.m, 1⟩ := by
  obtain ⟨y, m, d⟩ := c
  have h3 : 1 ≤ d := h.2.2.1
  show setDate (addDays ⟨y - 1, m, 1⟩ (d - 1)) 1 = ⟨y - 1, m, 1⟩
  exact yearNav_fit h3 hfit

theorem navBack_year_roll (c : Civil) (h : c.Valid)
    (hroll : daysInMonth (c.y - 1) c.m < c.d) :
    navigateBack .year c = ⟨c.y - 1, c.m + 1, 1⟩ := by
  obtain ⟨y, m, d⟩ := c
  have h1 : 1 ≤ m := h.1
  have h2 : m ≤ 12 := h.2.1
  have h4 : d ≤ daysInMonth y m := h.2.2.2
  have hle := daysInMonth_le y m
  have hM : m ≤ 11 := by
    by_contra hcon
    have hm12 : m = 12 := by omega
    subst hm12
    have ha := daysInMonth_twelve (y - 1)
    have hb := daysInMonth_twelve y
    dsimp only at hroll
    omega
  show setDate (addDays ⟨y - 1, m, 1⟩ (d - 1)) 1 = ⟨y - 1, m + 1, 1⟩
  exact yearNav_roll h1 hM (by omega) hroll

theorem navFwd_year_fit (c : Civil) (h : c.Valid)
    (hfit : c.d ≤ daysInMonth (c.y + 1) c.m) :
    navigateForward .year c = ⟨c.y + 1, c.m, 1⟩ := by
  obtain ⟨y, m, d⟩ := c
  have h3 : 1 ≤ d := h.2.2.1
  show setDate (addDays ⟨y + 1, m, 1⟩ (d - 1)) 1 = ⟨y + 1, m, 1⟩
  exact yearNav_fit h3 hfit

theorem navFwd_year_roll (c : Civil) (h : c.Valid)
    (hroll : daysInMonth (c.y + 1) c.m < c.d) :
    navigateForward .year c = ⟨c.y + 1, c.m + 1, 1⟩ := by
  obtain ⟨y, m, d⟩ := c
  have h1 : 1 ≤ m := h.1
  have h2 : m ≤ 12 := h.2.1
  have h4 : d ≤ daysInMonth y m := h.2.2.2
  have hle := daysInMonth_le y m
  have hM : m ≤ 11 := by
    by_contra hcon
    have hm12 : m = 12 := by omega
    subst hm12
    have ha := daysInMonth_twelve (y + 1)
    have hb := daysInMonth_twelve y
    dsimp only at hroll
    omega
  show setDate (addDays ⟨y + 1, m, 1⟩ (d - 1)) 1 = ⟨y + 1, m + 1, 1⟩
  exact yearNav_roll h1 hM (by omega) hroll

theorem navBack_month_fit (c : Civil) (h : c.Valid)
    (hfit : c.d ≤ daysInMonth (prevMonthPair c).1 (prevMonthPair c).2) :
    navigateBack .month c = ⟨(prevMonthPair c).1, (prevMonthPair c).2, c.d⟩ := by
  obtain ⟨y, m, d⟩ := c
  have h1 : 1 ≤ m := h.1
  have h2 : m ≤ 12 := h.2.1
  have h3 : 1 ≤ d := h.2.2.1
  have hdef : navigateBack .month ⟨y, m, d⟩ =
      (if (setMonthJS ⟨y, m, d⟩ (m - 2)).d ≠ d then setDate (setMonthJS ⟨y, m, d⟩ (m - 2)) 1
       else setMonthJS ⟨y, m, d⟩ (m - 2)) := rfl
  have hsm : setMonthJS ⟨y, m, d⟩ (m - 2) =
      addDays ⟨y + (m - 2) / 12, (m - 2) % 12 + 1, 1⟩ (d - 1) := rfl
  unfold prevMonthPair at hfit ⊢
  dsimp only at hfit ⊢
  by_cases hm2 : 2 ≤ m
  · rw [if_pos hm2] at hfit ⊢
    dsimp only at hfit ⊢
    have hdiv : (m - 2) / 12 = 0 := by omega
    have hmod : (m - 2) % 12 = m - 2 := by omega
    rw [hdef, hsm, hdiv, hmod]
    rw [show y + (0:Int) = y by ring, show m - 2 + 1 = m - 1 by ring]
    exact monthNav_fit h3 hfit
  · have hm1 : m = 1 := by omega
    subst hm1
    rw [if_neg (by omega : ¬ (2:Int) ≤ 1)] at hfit ⊢
    dsimp only at hfit ⊢
    have hdiv : ((1:Int) - 2) / 12 = -1 := by decide
    have hmod : ((1:Int) - 2) % 12 = 11 := by decide
    rw [hdef, hsm, hdiv, hmod]
    rw [show y + (-1:Int) = y - 1 by ring, show (11:Int) + 1 = 12 by norm_num]
    exact monthNav_fit h3 hfit

theorem navBack_month_roll (c : Civil) (h : c.Valid)
    (hroll : daysInMonth (prevMonthPair c).1 (prevMonthPair c).2 < c.d) :
    navigateBack .month c = ⟨c.y, c.m, 1⟩ := by
  obtain ⟨y, m, d⟩ := c
  have h1 : 1 ≤ m := h.1
  have h2 : m ≤ 12 := h.2.1
  have h3 : 1 ≤ d := h.2.2.1
  have h4 : d ≤ daysInMonth y m := h.2.2.2
  have hle := daysInMonth_le y m
  have hdef : navigateBack .month ⟨y, m, d⟩ =
      (if (setMonthJS ⟨y, m, d⟩ (m - 2)).d ≠ d then setDate (setMonthJS ⟨y, m, d⟩ (m - 2)) 1
       else setMonthJS ⟨y, m, d⟩ (m - 2)) := rfl
  have hsm : setMonthJS ⟨y, m, d⟩ (m - 2) =
      addDays ⟨y + (m - 2) / 12, (m - 2) % 12 + 1, 1⟩ (d - 1) := rfl
  unfold prevMonthPair at hroll
  dsimp only at hroll ⊢
  have hm2 : 2 ≤ m := by
    by_contra hcon
    have hm1 : m = 1 := by omega
    subst hm1
    rw [if_neg (by omega : ¬ (2:Int) ≤ 1)] at hroll
    dsimp only at hroll
    have := daysInMonth_twelve (y - 1)
    omega
  rw [if_pos hm2] at hroll
  dsimp only at hroll
  have hdiv : (m - 2) / 12 = 0 := by omega
  have hmod : (m - 2) % 12 = m - 2 := by omega
  rw [hdef, hsm, hdiv, hmod]
  rw [show y + (0:Int) = y by ring, show m - 2 + 1 = m - 1 by ring]
  have hres := monthNav_roll (by omega : (1:Int) ≤ m - 1) (by omega : m - 1 ≤ 11)
    (by omega : d ≤ 31) hroll
  rw [show m - 1 + 1 = m by ring] at hres
  exact hres

theorem navFwd_month_fit (c : Civil) (h : c.Valid)
    (hfit : c.d ≤ daysInMonth (nextMonthPair c).1 (nextMonthPair c).2) :
    navigateForward .month c = ⟨(nextMonthPair c).1, (nextMonthPair c).2, c.d⟩ := by
  obtain ⟨y, m, d⟩ := c
  have h1 : 1 ≤ m := h.1
  have h2 : m ≤ 12 := h.2.1
  have h3 : 1 ≤ d := h.2.2.1
  have hdef : navigateForward .month ⟨y, m, d⟩ =
      (if (setMonthJS ⟨y, m, d⟩ m).d ≠ d then setDate (setMonthJS ⟨y, m, d⟩ m) 1
       else setMonthJS ⟨y, m, d⟩ m) := rfl
  have hsm : setMonthJS ⟨y, m, d⟩ m =
      addDays ⟨y + m / 12, m % 12 + 1, 1⟩ (d - 1) := rfl
  unfold nextMonthPair at hfit ⊢
  dsimp only at hfit ⊢
  by_cases hm11 : m ≤ 11
  · rw [if_pos hm11] at hfit ⊢
    dsimp only at hfit ⊢
    have hdiv : m / 12 = 0 := by omega
    have hmod : m % 12 = m := by omega
    rw [hdef, hsm, hdiv, hmod]
    rw [show y + (0:Int) = y by ring]
    exact monthNav_fit h3 hfit
  · have hm12 : m = 12 := by omega
    subst hm12
    rw [if_neg (by omega : ¬ (12:Int) ≤ 11)] at hfit ⊢
    dsimp only at hfit ⊢
    have hdiv : (12:Int) / 12 = 1 := by decide
    have hmod : (12:Int) % 12 = 0 := by decide
    rw [hdef, hsm, hdiv, hmod]
    rw [show (0:Int) + 1 = 1 by norm_num]
    exact monthNav_fit h3 hfit

theorem navFwd_month_roll (c : Civil) (h : c.Valid)
    (hroll : daysInMonth (nextMonthPair c).1 (nextMonthPair c).2 < c.d) :
    navigateForward .month c = ⟨c.y, c.m + 2, 1⟩ := by
  obtain ⟨y, m, d⟩ := c
  have h1 : 1 ≤ m := h.1
  have h2 : m ≤ 12 := h.2.1
  have h3 : 1 ≤ d := h.2.2.1
  have h4 : d ≤ daysInMonth y m := h.2.2.2
  have hle := daysInMonth_le y m
  have hdef : navigateForward .month ⟨y, m, d⟩ =
      (if (setMonthJS ⟨y, m, d⟩ m).d ≠ d then setDate (setMonthJS ⟨y, m, d⟩ m) 1
       else setMonthJS ⟨y, m, d⟩ m) := rfl
  have hsm : setMonthJS ⟨y, m, d⟩ m =
      addDays ⟨y + m / 12, m % 12 + 1, 1⟩ (d - 1) := rfl
  unfold nextMonthPair at hroll
  dsimp only at hroll ⊢
  have hm11 : m ≤ 11 := by
    by_contra hcon
    have hm12 : m = 12 := by omega
    subst hm12
    rw [if_neg (by omega : ¬ (12:Int) ≤ 11)] at hroll
    dsimp only at hroll
    have := daysInMonth_one (y + 1)
    omega
  rw [if_pos hm11] at hroll
  dsimp only at hroll
  have hm10 : m ≤ 10 := by
    by_contra hcon
    have hm11' : m = 11 := by omega
    subst hm11'
    have := daysInMonth_twelve y
    norm_num at hroll
    omega
  have hdiv : m / 12 = 0 := by omega
  have hmod : m % 12 = m := by omega
  rw [hdef, hsm, hdiv, hmod]
  rw [show y + (0:Int) = y by ring]
  have hres := monthNav_roll (by omega : (1:Int) ≤ m + 1) (by omega : m + 1 ≤ 11)
    (by omega : d ≤ 31) hroll
  rw [show m + 1 + 1 = m + 2 by ring] at hres
  exact hres

/-- C4 amended: week and day navigation shift the date by exactly 7 or 1
days; year navigation shifts by one year but additionally sets the
day-of-month to 1 (after the Feb-29 rollover into March when the target
year is not a leap year); month navigation keeps the day-of-month when it
exists in the target month and otherwise (via the JS `setMonth` rollover
plus the source's clamp) lands on day 1 of the month after the target. -/
theorem C4_amended_navigation (c : Civil) (h : c.Valid) :
    epochDays (navigateBack .week c) = epochDays c - 7 ∧
    epochDays (navigateForward .week c) = epochDays c + 7 ∧
    epochDays (navigateBack .day c) = epochDays c - 1 ∧
    epochDays (navigateForward .day c) = epochDays c + 1 ∧
    (c.d ≤ daysInMonth (c.y - 1) c.m → navigateBack .year c = ⟨c.y - 1, c.m, 1⟩) ∧
    (daysInMonth (c.y - 1) c.m < c.d → navigateBack .year c = ⟨c.y - 1, c.m + 1, 1⟩) ∧
    (c.d ≤ daysInMonth (c.y + 1) c.m → navigateForward .year c = ⟨c.y + 1, c.m, 1⟩) ∧
    (daysInMonth (c.y + 1) c.m < c.d → navigateForward .year c = ⟨c.y + 1, c.m + 1, 1⟩) ∧
    (c.d ≤ daysInMonth (prevMonthPair c).1 (prevMonthPair c).2 →
      navigateBack .month c = ⟨(prevMonthPair c).1, (prevMonthPair c).2, c.d⟩) ∧
    (daysInMonth (prevMonthPair c).1 (prevMonthPair c).2 < c.d →
      navigateBack .month c = ⟨c.y, c.m, 1⟩) ∧
    (c.d ≤ daysInMonth (nextMonthPair c).1 (nextMonthPair c).2 →
      navigateForward .month c = ⟨(nextMonthPair c).1, (nextMonthPair c).2, c.d⟩) ∧
    (daysInMonth (nextMonthPair c).1 (nextMonthPair c).2 < c.d →
      navigateForward .month c = ⟨c.y, c.m + 2, 1⟩) :=
  ⟨navBack_week_epoch c h, navFwd_week_epoch c h, navBack_day_epoch c h, navFwd_day_epoch c h,
    fun hf => navBack_year_fit c h hf, fun hr => navBack_year_roll c h hr,
    fun hf => navFwd_year_fit c h hf, fun hr => navFwd_year_roll c h hr,
    fun hf => navBack_month_fit c h hf, fun hr => navBack_month_roll c h hr,
    fun hf => navFwd_month_fit c h hf, fun hr => navFwd_month_roll c h hr⟩

/-- C4 amended witness. -/
theorem C4_amended_navigation_witness :
    (⟨2024, 5, 20⟩ : Civil).Valid ∧
    (epochDays (navigateBack .week ⟨2024, 5, 20⟩) = epochDays ⟨2024, 5, 20⟩ - 7 ∧
     epochDays (navigateForward .week ⟨2024, 5, 20⟩) = epochDays ⟨2024, 5, 20⟩ + 7 ∧
     epochDays (navigateBack .day ⟨2024, 5, 20⟩) = epochDays ⟨2024, 5, 20⟩ - 1 ∧
     epochDays (navigateForward .day ⟨2024, 5, 20⟩) = epochDays ⟨2024, 5, 20⟩ + 1 ∧
     ((⟨2024, 5, 20⟩ : Civil).d ≤
        daysInMonth ((⟨2024, 5, 20⟩ : Civil).y - 1) (⟨2024, 5, 20⟩ : Civil).m →
       navigateBack .year ⟨2024, 5, 20⟩ =
         ⟨(⟨2024, 5, 20⟩ : Civil).y - 1, (⟨2024, 5, 20⟩ : Civil).m, 1⟩) ∧
     (daysInMonth ((⟨2024, 5, 20⟩ : Civil).y - 1) (⟨2024, 5, 20⟩ : Civil).m <
        (⟨2024, 5, 20⟩ : Civil).d →
       navigateBack .year ⟨2024, 5, 20⟩ =
         ⟨(⟨2024, 5, 20⟩ : Civil).y - 1, (⟨2024, 5, 20⟩ : Civil).m + 1, 1⟩) ∧
     ((⟨2024, 5, 20⟩ : Civil).d ≤
        daysInMonth ((⟨2024, 5, 20⟩ : Civil).y + 1) (⟨2024, 5, 20⟩ : Civil).m →
       navigateForward .year ⟨2024, 5, 20⟩ =
         ⟨(⟨2024, 5, 20⟩ : Civil).y + 1, (⟨2024, 5, 20⟩ : Civil).m, 1⟩) ∧
     (daysInMonth ((⟨2024, 5, 20⟩ : Civil).y + 1) (⟨2024, 5, 20⟩ : Civil).m <
        (⟨2024, 5, 20⟩ : Civil).d →
       navigateForward .year ⟨2024, 5, 20⟩ =
         ⟨(⟨2024, 5, 20⟩ : Civil).y + 1, (⟨2024, 5, 20⟩ : Civil).m + 1, 1⟩) ∧
     ((⟨2024, 5, 20⟩ : Civil).d ≤
        daysInMonth (prevMonthPair ⟨2024, 5, 20⟩).1 (prevMonthPair ⟨2024, 5, 20⟩).2 →
       navigateBack .month ⟨2024, 5, 20⟩ =
         ⟨(prevMonthPair ⟨2024, 5, 20⟩).1, (prevMonthPair ⟨2024, 5, 20⟩).2,
           (⟨2024, 5, 20⟩ : Civil).d⟩) ∧
     (daysInMonth (prevMonthPair ⟨2024, 5, 20⟩).1 (prevMonthPair ⟨2024, 5, 20⟩).2 <
        (⟨2024, 5, 20⟩ : Civil).d →
       navigateBack .month ⟨2024, 5, 20⟩ =
         ⟨(⟨2024, 5, 20⟩ : Civil).y, (⟨2024, 5, 20⟩ : Civil).m, 1⟩) ∧
     ((⟨2024, 5, 20⟩ : Civil).d ≤
        daysInMonth (nextMonthPair ⟨2024, 5, 20⟩).1 (nextMonthPair ⟨2024, 5, 20⟩).2 →
       navigateForward .month ⟨2024, 5, 20⟩ =
         ⟨(nextMonthPair ⟨2024, 5, 20⟩).1, (nextMonthPair ⟨2024, 5, 20⟩).2,
           (⟨2024, 5, 20⟩ : Civil).d⟩) ∧
     (daysInMonth (nextMonthPair ⟨2024, 5, 20⟩).1 (nextMonthPair ⟨2024, 5, 20⟩).2 <
        (⟨2024, 5, 20⟩ : Civil).d →
       navigateForward .month ⟨2024, 5, 20⟩ =
         ⟨(⟨2024, 5, 20⟩ : Civil).y, (⟨2024, 5, 20⟩ : Civil).m + 2, 1⟩)) :=
  ⟨by decide, C4_amended_navigation ⟨2024, 5, 20⟩ (by decide)⟩
